import Mathlib

/-!
Verification of the SneakDex indexer service
(`src/services/indexer/src/orchestrator.py` and
`src/services/indexer/src/consumer.py`) against its natural-language
specification.

The Python code is shallowly embedded: dictionaries become structures
(a missing key is the empty-string / empty-list default that
`dict.get` supplies at every use site), Python strings become `String`,
Python sets become lists consulted only through membership, and the
external effectful collaborators (the sentence-transformer `encode`,
`urlparse`-based keyword extraction, the Qdrant / Supabase network
calls) become explicit function parameters, so every theorem below is
universally quantified over their behaviour.
-/

namespace Sneakdex

/-- Python whitespace predicate used by `str.strip()` (the ASCII
whitespace characters; Unicode whitespace does not occur in this
development). -/
def isPySpace (c : Char) : Bool :=
  c == ' ' || c == '\t' || c == '\n' || c == '\r' ||
  c == Char.ofNat 11 || c == Char.ofNat 12

/-- Embedding of Python `str.strip()` on the character list: drop
leading and trailing whitespace. -/
def pyStripL (l : List Char) : List Char :=
  (l.dropWhile isPySpace).rdropWhile isPySpace

/-- Embedding of Python `str.strip()`. -/
def pyStrip (s : String) : String := ⟨pyStripL s.data⟩

/-- Embedding of the Python slice `s[:n]`. -/
def pyTake (n : Nat) (s : String) : String := ⟨s.data.take n⟩

/-- Embedding of the Python slice `s[-n:]` (the last `n` characters;
the whole string when it is shorter than `n`). -/
def pyLastN (n : Nat) (s : String) : String :=
  ⟨s.data.drop (s.data.length - n)⟩

/-- Embedding of Python `sep.join(pieces)`. -/
def pyJoin (sep : String) : List String → String
  | [] => ""
  | [x] => x
  | x :: y :: xs => x ++ sep ++ pyJoin sep (y :: xs)

/-- Embedding of Python `hay.rfind(needle)` on character lists: the
greatest index at which `needle` starts, `-1` when it does not occur. -/
def pyRfindL (needle : List Char) : List Char → Int
  | [] => if needle.isPrefixOf ([] : List Char) then 0 else -1
  | c :: rest =>
    let r := pyRfindL needle rest
    if 0 ≤ r then r + 1
    else if needle.isPrefixOf (c :: rest) then 0 else -1

/-- Embedding of Python `l.rsplit(" ", 1)[0]`: everything before the
last space, or the whole list when it holds no space. -/
def rsplitSpaceHead (l : List Char) : List Char :=
  let r := pyRfindL [' '] l
  if 0 ≤ r then l.take r.toNat else l

/-- Embedding of the Python membership test `needle in hay` on
strings (contiguous-substring containment). -/
def containsSeq (needle : List Char) : List Char → Bool
  | [] => needle.isEmpty
  | c :: rest => needle.isPrefixOf (c :: rest) || containsSeq needle rest

/-- Embedding of Python `str.lower()` (every string lowered in this
development is ASCII).  This applies the same character map as
`String.toLower`, but structurally over the character list so that it
computes by kernel reduction. -/
def pyLower (s : String) : String := ⟨s.data.map Char.toLower⟩

section StringLemmas

theorem pyStripL_length_le (l : List Char) : (pyStripL l).length ≤ l.length :=
  le_trans ( List.IsPrefix.length_le (List.rdropWhile_prefix _ _))
    (List.IsSuffix.length_le (List.dropWhile_suffix _))

theorem neg_one_le_pyRfindL (needle hay : List Char) :
    -1 ≤ pyRfindL needle hay := by
  induction hay with
  | nil => unfold pyRfindL; split <;> omega
  | cons c rest ih =>
    unfold pyRfindL
    simp only
    split
    · omega
    · split <;> omega

theorem pyRfindL_found (needle hay : List Char) (b : Nat)
    (h : pyRfindL needle hay = (b : Int)) :
    needle <+: hay.drop b := by
  induction hay generalizing b with
  | nil =>
    unfold pyRfindL at h
    split at h
    · next hp =>
      have : b = 0 := by omega
      subst this
      simpa using hp
    · omega
  | cons c rest ih =>
    unfold pyRfindL at h
    simp only at h
    split at h
    · next hr =>
      obtain ⟨r, hr'⟩ : ∃ r : Nat, pyRfindL needle rest = (r : Int) := by
        refine ⟨(pyRfindL needle rest).toNat, ?_⟩
        omega
      have hb : b = r + 1 := by omega
      subst hb
      simpa using ih r hr'
    · split at h
      · next hp =>
        have : b = 0 := by omega
        subst this
        simpa using hp
      · omega

theorem pyRfindL_neg (needle hay : List Char) (h : pyRfindL needle hay < 0) :
    ∀ j, ¬ needle <+: hay.drop j := by
  induction hay with
  | nil =>
    intro j
    unfold pyRfindL at h
    split at h
    · omega
    · next hp =>
      simp only [List.drop_nil]
      exact fun hc => hp (by simpa using hc)
  | cons c rest ih =>
    intro j
    unfold pyRfindL at h
    simp only at h
    split at h
    · omega
    · split at h
      · omega
      · next hp =>
        match j with
        | 0 => exact fun hc => hp (by simpa using hc)
        | j + 1 =>
          have hrest : pyRfindL needle rest < 0 := by omega
          simpa using ih hrest j

theorem pyRfindL_maximal (needle hay : List Char) (j : Nat)
    (hjlen : j ≤ hay.length) (hj : needle <+: hay.drop j) :
    (j : Int) ≤ pyRfindL needle hay := by
  induction hay generalizing j with
  | nil =>
    have : j = 0 := by simpa using hjlen
    subst this
    unfold pyRfindL
    split
    · omega
    · next hp =>
      exact absurd (by simpa using hj) hp
  | cons c rest ih =>
    unfold pyRfindL
    simp only
    split
    · next hr =>
      match j with
      | 0 => omega
      | j + 1 =>
        have := ih j (by simpa using hjlen) (by simpa using hj)
        omega
    · next hr =>
      match j with
      | 0 =>
        have : needle.isPrefixOf (c :: rest) = true := by simpa using hj
        simp [this]
      | j + 1 =>
        exfalso
        have hneg : pyRfindL needle rest < 0 := by omega
        exact pyRfindL_neg needle rest hneg j (by simpa using hj)

theorem pyRfindL_lt_length (needle hay : List Char) (b : Nat)
    (hne : needle ≠ []) (h : pyRfindL needle hay = (b : Int)) :
    b < hay.length := by
  have hp := pyRfindL_found needle hay b h
  by_contra hge
  push_neg at hge
  rw [List.drop_eq_nil_of_le hge] at hp
  exact hne (List.prefix_nil.mp hp)

theorem prefix_cons_head {α : Type} (x l : List α) (a : α)
    (h : x <+: (a :: l)) (hx : x ≠ []) : x.head hx = a := by
  match x with
  | [] => exact absurd rfl hx
  | b :: x' =>
    obtain ⟨t, ht⟩ := h
    simp only [List.cons_append] at ht
    exact (List.cons.injEq _ _ _ _ ▸ ht).1

theorem prefix_head_eq {α : Type} (x l : List α)
    (h : x <+: l) (hx : x ≠ []) (hl : l ≠ []) : x.head hx = l.head hl := by
  match l with
  | [] => exact absurd rfl hl
  | a :: l' => exact prefix_cons_head x l' a h hx

/-- An infix whose first element does not satisfy `p` survives
`dropWhile p`. -/
theorem infix_dropWhile {α : Type} (p : α → Bool) (x l : List α)
    (hx : x ≠ []) (hhead : p (x.head hx) = false) (h : x <:+: l) :
    x <:+: l.dropWhile p := by
  induction l with
  | nil =>
    rw [List.infix_nil] at h
    exact absurd h hx
  | cons a l' ih =>
    rcases h with ⟨s, t, hst⟩
    match s with
    | [] =>
      simp only [List.nil_append] at hst
      match x, hx, hhead, hst with
      | xh :: x', hx, hhead, hst =>
        have hax : a = xh := by
          injection hst with h1 h2
          exact h1.symm
        have hpa : p a = false := by rw [hax]; exact hhead
        rw [List.dropWhile_cons, hpa]
        simp only [Bool.false_eq_true, if_false]
        exact ⟨[], t, hst⟩
    | b :: s' =>
      simp only [List.cons_append] at hst
      have hl' : x <:+: l' := by
        refine ⟨s', t, ?_⟩
        injection hst
      rw [List.dropWhile_cons]
      split
      · exact ih hl'
      · exact List.infix_cons hl'

/-- An infix whose last element does not satisfy `p` survives
`rdropWhile p`. -/
theorem infix_rdropWhile {α : Type} (p : α → Bool) (x l : List α)
    (hx : x ≠ []) (hlast : p (x.getLast hx) = false) (h : x <:+: l) :
    x <:+: l.rdropWhile p := by
  rw [List.rdropWhile]
  rw [← List.reverse_infix]
  rw [List.reverse_reverse]
  refine infix_dropWhile p x.reverse l.reverse ?_ ?_ ?_
  · simpa using hx
  · rwa [List.head_reverse]
  · exact List.reverse_infix.mpr h

/-- An infix with non-whitespace endpoints survives `pyStripL`. -/
theorem infix_pyStripL (x l : List Char) (hx : x ≠ [])
    (hhead : isPySpace (x.head hx) = false)
    (hlast : isPySpace (x.getLast hx) = false) (h : x <:+: l) :
    x <:+: pyStripL l :=
  infix_rdropWhile _ _ _ hx hlast (infix_dropWhile _ _ _ hx hhead h)

/-- A member of the joined list is an infix of the join. -/
theorem mem_pyJoin_infix (sep : String) (x : String) (l : List String)
    (h : x ∈ l) : x.data <:+: (pyJoin sep l).data := by
  induction l with
  | nil => simp at h
  | cons a l' ih =>
    match l' with
    | [] =>
      have : x = a := by simpa using h
      subst this
      exact List.infix_rfl
    | b :: l'' =>
      rcases List.mem_cons.mp h with hxa | hmem
      · subst hxa
        show x.data <:+: (x ++ sep ++ pyJoin sep (b :: l'')).data
        rw [String.data_append, String.data_append]
        exact ((List.prefix_append _ _).trans (List.prefix_append _ _)).isInfix
      · have := ih hmem
        show x.data <:+: (a ++ sep ++ pyJoin sep (b :: l'')).data
        rw [String.data_append]
        exact this.trans (List.suffix_append _ _).isInfix

/-- The head of a non-empty `pyStripL` result is not whitespace. -/
theorem pyStripL_head_not_space (l : List Char) (h : pyStripL l ≠ []) :
    isPySpace ((pyStripL l).head h) = false := by
  have hpre : pyStripL l <+: l.dropWhile isPySpace :=
    List.rdropWhile_prefix _ _
  have hdw : l.dropWhile isPySpace ≠ [] := by
    intro hc
    exact h (List.prefix_nil.mp (hc ▸ hpre))
  rw [prefix_head_eq _ _ hpre h hdw]
  exact List.head_dropWhile_not _ _ hdw

/-- The last element of a non-empty `pyStripL` result is not
whitespace. -/
theorem pyStripL_getLast_not_space (l : List Char) (h : pyStripL l ≠ []) :
    isPySpace ((pyStripL l).getLast h) = false := by
  have := List.rdropWhile_last_not isPySpace (l.dropWhile isPySpace) h
  simpa using this

end StringLemmas

/-! ## Embedding of `ModernIndexer._smart_truncate` -/

/-- Embedding of `ModernIndexer._smart_truncate` (orchestrator.py,
lines 294-319).  The Python float comparison
`boundary > max_length * 0.8` is embedded as the exact comparison
`4 * max_length < 5 * boundary`; for the integer operands involved the
two agree.  The Python code computes `temp.strip()` on the sentence
path but discards the result (line 308), so that path returns the
unstripped prefix, as here. -/
def smart_truncate (text : String) (max_length : Nat) : String :=
  if text.length ≤ max_length then text
  else
    let truncated := pyTake max_length text
    let last_sentence := pyRfindL ['.', ' '] truncated.data
    let last_newline := pyRfindL ['\n'] truncated.data
    let boundary := max last_sentence last_newline
    if 4 * (max_length : Int) < 5 * boundary then
      pyTake (boundary.toNat + 1) truncated
    else
      pyStrip ⟨rsplitSpaceHead truncated.data⟩

theorem pyRfindL_lt_length_int (needle hay : List Char) (hne : needle ≠ []) :
    pyRfindL needle hay < (hay.length : Int) := by
  rcases le_or_lt 0 (pyRfindL needle hay) with h | h
  · obtain ⟨b, hb⟩ : ∃ b : Nat, pyRfindL needle hay = (b : Int) :=
      ⟨(pyRfindL needle hay).toNat, by omega⟩
    have := pyRfindL_lt_length needle hay b hne hb
    omega
  · have : (0 : Int) ≤ hay.length := by positivity
    omega

theorem rsplitSpaceHead_length_le (l : List Char) :
    (rsplitSpaceHead l).length ≤ l.length := by
  unfold rsplitSpaceHead
  dsimp only
  split
  · simp
  · exact le_rfl

theorem pyTake_length (n : Nat) (s : String) :
    (pyTake n s).length = min n s.length := by
  show (s.data.take n).length = min n s.data.length
  exact List.length_take n s.data

theorem pyStrip_length_le (s : String) : (pyStrip s).length ≤ s.length :=
  pyStripL_length_le s.data

/-- The result of `_smart_truncate` never exceeds the limit. -/
theorem smart_truncate_length_le (text : String) (max_length : Nat) :
    (smart_truncate text max_length).length ≤ max_length := by
  unfold smart_truncate
  split
  · assumption
  · next hgt =>
    push_neg at hgt
    have htrunc : (pyTake max_length text).length = max_length := by
      rw [pyTake_length]
      omega
    have hdata : (pyTake max_length text).data.length = max_length := htrunc
    dsimp only
    split
    · next hcond =>
      rw [pyTake_length, htrunc]
      have hb : 0 ≤ max (pyRfindL ['.', ' '] (pyTake max_length text).data)
          (pyRfindL ['\n'] (pyTake max_length text).data) := by omega
      have h1 : pyRfindL ['.', ' '] (pyTake max_length text).data <
          ((pyTake max_length text).data.length : Int) :=
        pyRfindL_lt_length_int _ _ (by simp)
      have h2 : pyRfindL ['\n'] (pyTake max_length text).data <
          ((pyTake max_length text).data.length : Int) :=
        pyRfindL_lt_length_int _ _ (by simp)
      rw [hdata] at h1 h2
      omega
    · calc (pyStrip ⟨rsplitSpaceHead (pyTake max_length text).data⟩).length
          ≤ (rsplitSpaceHead (pyTake max_length text).data).length :=
            pyStrip_length_le _
        _ ≤ (pyTake max_length text).data.length := rsplitSpaceHead_length_le _
        _ = max_length := hdata

/-! ## Data model

A parsed-page record is a Python dict read exclusively through
`doc.get(key, default)`; it is embedded as a structure whose fields
default to the `get` defaults (a missing key and an explicit empty
value are indistinguishable at every use site).  Heading entries that
are not dicts, non-string field values and `None` timestamps are not
modelled. -/

structure Heading where
  text : String := ""
  level : Nat := 1
deriving Repr, DecidableEq

structure ImageRec where
  src : String := ""
  alt : String := ""
  title : String := ""
deriving Repr, DecidableEq

structure Doc where
  url : String := ""
  title : String := ""
  description : String := ""
  headings : List Heading := []
  cleaned_text : String := ""
  images : List ImageRec := []
  content_type : String := ""
  language : String := ""
  timestamp : String := ""
deriving Repr, DecidableEq

/-- An image descriptor enriched with its owning page's context, as
built by `_extract_and_process_images`. -/
structure EnhancedImage where
  src : String := ""
  alt : String := ""
  title : String := ""
  id : String := ""
  page_url : String := ""
  page_title : String := ""
  page_description : String := ""
  timestamp : String := ""
deriving Repr, DecidableEq

/-- The counter fields of `IndexingStats` (the two float timing fields
are not modelled). -/
structure IndexingStats where
  total_docs : Nat := 0
  successful_docs : Nat := 0
  failed_docs : Nat := 0
  duplicate_docs : Nat := 0
  total_images : Nat := 0
  successful_images : Nat := 0
  failed_images : Nat := 0
deriving Repr, DecidableEq

/-- The two process-wide dedup sets `_url_cache` and `_content_hashes`,
modelled as lists consulted only through membership. -/
structure DedupState where
  url_cache : List String := []
  content_hashes : List String := []
deriving Repr, DecidableEq

/-- Embedding of `ModernIndexer.generate_doc_id`: `uuid.uuid5` is a
deterministic function of its input string, injective on all inputs
occurring in this development; it is modelled as the identity. -/
def generate_doc_id (source : String) : String := source

/-- Embedding of `ModernIndexer._validate_document` (orchestrator.py,
lines 141-162). -/
def validate_document (min_content_length : Nat) (url_cache : List String)
    (doc : Doc) : Bool × String :=
  if doc.url = "" then (false, "Missing URL")
  else if doc.title = "" ∧ doc.cleaned_text = "" then
    (false, "Missing both title and content")
  else if doc.cleaned_text ≠ "" ∧
      (pyStrip doc.cleaned_text).length < min_content_length then
    (false, "Content too short (" ++ toString doc.cleaned_text.length ++ " chars)")
  else if pyStrip doc.url ∈ url_cache then (false, "Duplicate URL")
  else (true, "Valid")

/-- Embedding of `ModernIndexer._compute_content_hash` (orchestrator.py,
lines 164-169): `hashlib.md5(combined.encode()).hexdigest()` is a
deterministic function of `combined`, collision-free on all inputs
occurring in this development; it is modelled as the identity on
`combined`. -/
def compute_content_hash (doc : Doc) : String :=
  pyStrip (doc.title ++ "|" ++ doc.cleaned_text)

/-- Embedding of `ModernIndexer._clean_headings` (orchestrator.py,
lines 171-195), restricted to dict-shaped headings; a falsy `level`
becomes 1. -/
def clean_headings (max_heading_length : Nat) (headings : List Heading) :
    List Heading :=
  (headings.take 5).filterMap fun h =>
    let text := if h.text ≠ "" then pyStrip h.text else ""
    let level := if h.level = 0 then 1 else h.level
    if text ≠ "" ∧ text.length ≤ max_heading_length then
      some { text := text, level := level }
    else none

/-- Context for `build_embedding_text`.  The helper functions
`_extract_url_keywords` and `_extract_domain_context`, and the
`urlparse(url).netloc` projection used by `_add_metadata_context`, are
pure string-to-string functions implemented with `urlparse`/`re`; no
claim depends on their output, so they are abstracted as parameters and
every theorem below holds for all of them. -/
structure BuildCtx where
  max_embedding_length : Nat := 8192
  max_heading_length : Nat := 200
  extract_url_keywords : String → String
  extract_domain_context : String → String
  urlparse_netloc : String → String

/-- Embedding of `ModernIndexer._add_metadata_context` (orchestrator.py,
lines 268-292), returning the pieces it appends. -/
def add_metadata_context (ctx : BuildCtx) (doc : Doc) : List String :=
  (let ct := if doc.content_type ≠ "" then pyStrip doc.content_type else ""
   if ct ≠ "" ∧ ct ∉ ["text/html", "text/plain"] then ["type:" ++ ct] else []) ++
  (let lang := if doc.language ≠ "" then pyStrip doc.language else ""
   if lang ≠ "" ∧ lang ∉ ["en", "english", ""] then ["lang:" ++ lang] else []) ++
  (if doc.url ≠ "" then
     let domain := (ctx.urlparse_netloc (pyStrip doc.url)).toLower
     if [".edu", ".gov", ".org"].any (fun t => containsSeq t.data domain.data)
     then ["authoritative_source"] else []
   else [])

/-- The piece list assembled by `ModernIndexer.build_embedding_text`
(orchestrator.py, lines 201-253), in order: doubled title, description,
cleaned headings with the level-1 hierarchy hint, body text with the
long-body excerpt, URL keywords and domain context, metadata tokens. -/
def build_pieces (ctx : BuildCtx) (doc : Doc) : List String :=
  (if doc.title ≠ "" then [pyStrip doc.title, pyStrip doc.title] else []) ++
  (let title := if doc.title ≠ "" then pyStrip doc.title else ""
   let description := if doc.description ≠ "" then pyStrip doc.description else ""
   if description ≠ "" ∧ description ≠ title then [description] else []) ++
  (if doc.headings ≠ [] then
     let cleaned := clean_headings ctx.max_heading_length doc.headings
     cleaned.map (fun h => h.text) ++
       (let h1 := (cleaned.filter (fun h => h.level = 1)).map (fun h => h.text)
        if 1 < h1.length then [pyJoin " → " h1] else [])
   else []) ++
  (if doc.cleaned_text ≠ "" then
     let content := pyStrip doc.cleaned_text
     [if 4000 < content.length then
        pyTake 2000 content ++ " ... " ++ pyLastN 1000 content
      else content]
   else []) ++
  (if doc.url ≠ "" then
     let url := pyStrip doc.url
     (let kw := ctx.extract_url_keywords url
      if kw ≠ "" then [kw] else []) ++
     (let dc := ctx.extract_domain_context url
      if dc ≠ "" then [dc] else [])
   else []) ++
  add_metadata_context ctx doc

/-- The joined and stripped embedding text before the final length
check (orchestrator.py, lines 256-258). -/
def assembled_text (ctx : BuildCtx) (doc : Doc) : String :=
  pyStrip (pyJoin " " ((build_pieces ctx doc).filter (fun s => s ≠ "")))

/-- Embedding of `ModernIndexer.build_embedding_text` (orchestrator.py,
lines 197-266). -/
def build_embedding_text (ctx : BuildCtx) (doc : Doc) : String :=
  let e := assembled_text ctx doc
  if ctx.max_embedding_length < e.length then
    smart_truncate e ctx.max_embedding_length
  else e

/-- Embedding of `ModernIndexer.build_image_caption` (orchestrator.py,
lines 403-438); the final `temp.strip()` is computed and discarded by
the Python code, so the joined string is returned unstripped. -/
def build_image_caption (img : EnhancedImage) : String :=
  let alt_text := if img.alt ≠ "" then pyStrip img.alt else ""
  let title_text := if img.title ≠ "" then pyStrip img.title else ""
  let parts :=
    (if alt_text ≠ "" then [alt_text] else []) ++
    (if title_text ≠ "" ∧ title_text ≠ alt_text then [title_text] else [])
  let page_title := if img.page_title ≠ "" then pyStrip img.page_title else ""
  let parts :=
    if page_title ≠ "" ∧ 0 < parts.length then parts ++ ["from: " ++ page_title]
    else parts
  pyJoin " " parts

/-- Embedding of `ModernIndexer._extract_and_process_images`
(orchestrator.py, lines 522-546). -/
def extract_and_process_images (doc : Doc) : List EnhancedImage :=
  doc.images.filterMap fun img =>
    let src := if img.src ≠ "" then pyStrip img.src else ""
    if src = "" ∨ src = "about:blank" then none
    else some { src := img.src, alt := img.alt, title := img.title,
                id := generate_doc_id src,
                page_url := doc.url, page_title := doc.title,
                page_description := doc.description,
                timestamp := doc.timestamp }

/-- A document accepted by validation, with its assigned id and content
hash (the Python code stores them back into the dict). -/
structure ProcessedDoc where
  doc : Doc
  id : String
  content_hash : String
deriving Repr, DecidableEq

structure BatchResult where
  valid_docs : List ProcessedDoc
  images : List EnhancedImage
  stats : IndexingStats
  state : DedupState
deriving Repr, DecidableEq

/-- The per-document loop of `ModernIndexer._process_and_validate_batch`
(orchestrator.py, lines 480-520).  The `doc.get("url", "empty_url")`
defaults are unreachable for accepted documents (validation rejected
empty URLs), so the raw `doc.url` is used. -/
def process_and_validate_go (min_content_length : Nat) :
    List Doc → DedupState → List ProcessedDoc → List EnhancedImage →
    IndexingStats → BatchResult
  | [], st, vd, imgs, stats =>
    ⟨vd, imgs, { stats with successful_docs := vd.length }, st⟩
  | doc :: rest, st, vd, imgs, stats =>
    match validate_document min_content_length st.url_cache doc with
    | (is_valid, reason) =>
      if is_valid then
        let content_hash := compute_content_hash doc
        if content_hash ∈ st.content_hashes then
          process_and_validate_go min_content_length rest st vd imgs
            { stats with duplicate_docs := stats.duplicate_docs + 1 }
        else
          let pd : ProcessedDoc := ⟨doc, generate_doc_id doc.url, content_hash⟩
          let new_images := extract_and_process_images doc
          process_and_validate_go min_content_length rest
            { url_cache := doc.url :: st.url_cache,
              content_hashes := content_hash :: st.content_hashes }
            (vd ++ [pd]) (imgs ++ new_images)
            { stats with total_images := stats.total_images + new_images.length }
      else if containsSeq "duplicate".data (pyLower reason).data then
        process_and_validate_go min_content_length rest st vd imgs
          { stats with duplicate_docs := stats.duplicate_docs + 1 }
      else
        process_and_validate_go min_content_length rest st vd imgs
          { stats with failed_docs := stats.failed_docs + 1 }

/-- Embedding of `ModernIndexer._process_and_validate_batch`. -/
def process_and_validate_batch (min_content_length : Nat)
    (documents : List Doc) (stats : IndexingStats) (st : DedupState) :
    BatchResult :=
  process_and_validate_go min_content_length documents st [] [] stats

/-- The validation/deduplication phase of `ModernIndexer.index_batch`
(orchestrator.py, lines 444-455): a fresh `IndexingStats` whose
`total_docs` is the batch length, handed to
`_process_and_validate_batch` (for an empty batch the early return
yields the same value). -/
def index_batch_phase1 (min_content_length : Nat) (st : DedupState)
    (documents : List Doc) : BatchResult :=
  process_and_validate_batch min_content_length documents
    { total_docs := documents.length } st

/-! ## Embedding generation and point creation for images

`self.model.encode` maps each text of a batch to one vector; it is
abstracted as a function `encode : String → V` applied elementwise,
quantified over in every theorem.  `_generate_embeddings` builds all
image captions, drops the falsy ones, and encodes only the survivors
(orchestrator.py, lines 568-584). -/

def generate_image_embeddings {V : Type} (encode : String → V)
    (images : List EnhancedImage) : List V :=
  if images ≠ [] then
    ((images.map build_image_caption).filter
      (fun c => c ≠ "" ∧ pyStrip c ≠ "")).map encode
  else []

/-- A vector-store point: an id paired with the vector it carries (the
payload is irrelevant to the claims). -/
structure Point (V : Type) where
  id : String
  vector : V
deriving Repr, DecidableEq

/-- The image-point loop of `_create_and_upsert_points`
(orchestrator.py, lines 623-642): image `i` is paired with embedding
`i` whenever `i < len(img_embeddings)`.  Returns the points together
with the `successful_images` increment (point construction cannot fail
in the model, so `failed_images` stays 0). -/
def create_image_points {V : Type} (images : List EnhancedImage)
    (img_embeddings : List V) : List (Point V) × Nat :=
  let pts := images.enum.filterMap fun p =>
    (img_embeddings[p.1]?).map fun v => Point.mk p.2.id v
  (pts, pts.length)

/-! ## The dual-sink upsert-with-retry protocol

Both `_upsert_qdrant_with_retry` and `_upsert_supabase_with_retry`
(orchestrator.py, lines 701-750) run the same loop: up to
`retry_attempts` attempts, warning log on every failed attempt, error
log plus re-raise on the final failed attempt, `time.sleep(2**attempt)`
after every non-final failed attempt.  Whether the network call of a
given attempt raises is abstracted as `fails_at : Nat → Bool` over the
0-based attempt index. -/

structure RetryResult where
  raised : Bool
  attempts : Nat
  warnings : Nat
  error_logs : Nat
  delays : List Nat
deriving Repr, DecidableEq

/-- The retry loop, parametrised by the remaining iteration count and
the current 0-based attempt index. -/
def retry_go (fails_at : Nat → Bool) : Nat → Nat → RetryResult
  | 0, _ => ⟨false, 0, 0, 0, []⟩
  | remaining + 1, i =>
    if fails_at i then
      if remaining = 0 then ⟨true, 1, 1, 1, []⟩
      else
        let rest := retry_go fails_at remaining (i + 1)
        ⟨rest.raised, rest.attempts + 1, rest.warnings + 1,
          rest.error_logs, 2 ^ i :: rest.delays⟩
    else ⟨false, 1, 0, 0, []⟩

/-- Embedding of the shared retry loop with `retry_attempts = n`; for
`n = 0` the Python `for` loop body never runs and the function returns
without attempting anything. -/
def upsert_with_retry (n : Nat) (fails_at : Nat → Bool) : RetryResult :=
  retry_go fails_at n 0

/-- Chunking of the image points, `range(0, len(points), batch_size)`
(orchestrator.py, line 649); `batch_size` is validated positive by
`IndexerConfig`. -/
def chunks_of {α : Type} (batch_size : Nat) : List α → List (List α)
  | [] => []
  | x :: xs =>
    (x :: xs).take batch_size :: chunks_of batch_size (xs.drop (batch_size - 1))
termination_by l => l.length
decreasing_by
  simp only [List.length_drop, List.length_cons]
  omega

/-- Observable outcome of the upsert phase of
`_create_and_upsert_points` (orchestrator.py, lines 644-656): which
sink calls ran, their retry outcomes, and whether an exception
propagated to the caller.  `supabase_called` records whether control
reached the `_upsert_supabase_with_retry` call at all. -/
structure SinkTrace where
  qdrant_docs : Option RetryResult
  qdrant_image_batches : List RetryResult
  supabase_called : Bool
  supabase : Option RetryResult
  raised : Bool
deriving Repr, DecidableEq

/-- Sequential execution of the image sub-batch upserts; a raise in one
sub-batch aborts the remaining ones. -/
def run_image_chunks (n : Nat) (img_fails_at : Nat → Nat → Bool) :
    List Nat → List RetryResult × Bool
  | [] => ([], false)
  | k :: ks =>
    let r := upsert_with_retry n (img_fails_at k)
    if r.raised then ([r], true)
    else
      let rest := run_image_chunks n img_fails_at ks
      (r :: rest.1, rest.2)

/-- Embedding of the upsert sequence of `_create_and_upsert_points`
(orchestrator.py, lines 644-656): document points to Qdrant, then the
image points in `batch_size` chunks, then the rows to Supabase — each
through its retry wrapper, whose empty-input early return is kept.  An
exception raised by an earlier call propagates out of the method, so
later calls never run.  `qdrant_fails_at`, `img_fails_at k` and
`supabase_fails_at` abstract whether the respective network call raises
on a given 0-based attempt. -/
def create_and_upsert_points {P Q R : Type}
    (retry_attempts batch_size : Nat)
    (doc_points : List P) (img_points : List Q) (supabase_rows : List R)
    (qdrant_fails_at : Nat → Bool) (img_fails_at : Nat → Nat → Bool)
    (supabase_fails_at : Nat → Bool) : SinkTrace :=
  let qd := if doc_points.isEmpty then none
            else some (upsert_with_retry retry_attempts qdrant_fails_at)
  if (qd.map (fun r => r.raised)).getD false then
    ⟨qd, [], false, none, true⟩
  else
    let img_run :=
      if img_points.isEmpty then ([], false)
      else run_image_chunks retry_attempts img_fails_at
        (List.range (chunks_of batch_size img_points).length)
    if img_run.2 then
      ⟨qd, img_run.1, false, none, true⟩
    else
      let sb := if supabase_rows.isEmpty then none
                else some (upsert_with_retry retry_attempts supabase_fails_at)
      ⟨qd, img_run.1, true, sb, (sb.map (fun r => r.raised)).getD false⟩

/-! ## The consumption loop

Embedding of `run_consumer` (consumer.py, lines 48-104).  One loop
iteration handles one `consumer.poll` outcome; the poll outcomes that
occur before the loop exits are given as a finite list.  A `silent`
event is a `None` poll (the loop sleeps briefly and continues), an
`errored` event is a message carrying a broker error (logged or
ignored, then skipped), and `message ok d` is a payload that decodes to
`d` when `ok` is true and raises during decoding otherwise.  The loop
exits when the event list is exhausted (the externally set stop event)
or when `max_docs` is reached; the remaining batch is then flushed.
`_process_batch` catches every indexing exception, so a flush always
returns to the loop. -/

inductive PollEvent (α : Type) where
  | silent : PollEvent α
  | errored : PollEvent α
  | message : Bool → α → PollEvent α
deriving Repr, DecidableEq

/-- Python `if max_docs and total_consumed >= max_docs` (`None` and `0`
are falsy). -/
def max_docs_reached (max_docs : Option Nat) (total_consumed : Nat) : Bool :=
  match max_docs with
  | none => false
  | some m => if m = 0 then false else decide (m ≤ total_consumed)

/-- State of the loop when it exits: the batches flushed inside the
loop, the pending batch, the consumed and failed message counts, and
whether the `max_docs` break fired. -/
structure LoopResult (α : Type) where
  flushes : List (List α)
  pending : List α
  consumed : Nat
  failed : Nat
  broke : Bool
deriving Repr, DecidableEq

/-- The consumer loop, one iteration per poll outcome. -/
def consumer_go {α : Type} (batch_size : Nat) (max_docs : Option Nat) :
    List (PollEvent α) → List α → Nat → Nat → LoopResult α
  | [], batch, consumed, failed => ⟨[], batch, consumed, failed, false⟩
  | e :: es, batch, consumed, failed =>
    match e with
    | .silent => consumer_go batch_size max_docs es batch consumed failed
    | .errored => consumer_go batch_size max_docs es batch consumed failed
    | .message ok d =>
      if ok then
        let batch' := batch ++ [d]
        let consumed' := consumed + 1
        if batch_size ≤ batch'.length then
          if max_docs_reached max_docs consumed' then
            ⟨[batch'], [], consumed', failed, true⟩
          else
            let r := consumer_go batch_size max_docs es [] consumed' failed
            { r with flushes := batch' :: r.flushes }
        else
          if max_docs_reached max_docs consumed' then
            ⟨[], batch', consumed', failed, true⟩
          else
            consumer_go batch_size max_docs es batch' consumed' failed
      else
        consumer_go batch_size max_docs es batch consumed (failed + 1)

/-- Result of one `run_consumer` run. -/
structure ConsumerRun (α : Type) where
  loop_flushes : List (List α)
  final_flush : Option (List α)
  consumed : Nat
  failed_messages : Nat
  stopped_by_max_docs : Bool
deriving Repr, DecidableEq

/-- Embedding of `run_consumer`: the loop followed by the
flush-remaining-batch step (consumer.py, lines 94-96). -/
def run_consumer {α : Type} (batch_size : Nat) (max_docs : Option Nat)
    (events : List (PollEvent α)) : ConsumerRun α :=
  let r := consumer_go batch_size max_docs events [] 0 0
  { loop_flushes := r.flushes,
    final_flush := if r.pending.isEmpty then none else some r.pending,
    consumed := r.consumed,
    failed_messages := r.failed,
    stopped_by_max_docs := r.broke }

/-! ## Retry-loop lemmas -/

theorem retry_go_success (fails_at : Nat → Bool) :
    ∀ (k r i : Nat), k < r → (∀ j, j < k → fails_at (i + j) = true) →
    fails_at (i + k) = false →
    retry_go fails_at r i =
      ⟨false, k + 1, k, 0, (List.range k).map (fun j => 2 ^ (i + j))⟩ := by
  intro k
  induction k with
  | zero =>
    intro r i hk hfail hsucc
    match r, hk with
    | r' + 1, _ =>
      unfold retry_go
      simp only [Nat.add_zero] at hsucc
      rw [hsucc]
      simp
  | succ k ih =>
    intro r i hk hfail hsucc
    match r, hk with
    | r' + 1, _ =>
      unfold retry_go
      have h0 : fails_at i = true := by
        have := hfail 0 (by omega)
        simpa using this
      rw [h0]
      simp only [if_true]
      have hr' : ¬ r' = 0 := by omega
      rw [if_neg hr']
      have hfail' : ∀ j, j < k → fails_at (i + 1 + j) = true := by
        intro j hj
        have := hfail (j + 1) (by omega)
        have harith : i + (j + 1) = i + 1 + j := by omega
        rwa [harith] at this
      have hsucc' : fails_at (i + 1 + k) = false := by
        have harith : i + 1 + k = i + (k + 1) := by omega
        rwa [harith]
      rw [ih r' (i + 1) (by omega) hfail' hsucc']
      simp only
      congr 1
      rw [List.range_succ_eq_map, List.map_cons, List.map_map]
      simp only [Nat.add_zero]
      congr 1
      apply List.map_congr_left
      intro a ha
      simp only [Function.comp_apply]
      congr 1
      omega

theorem retry_go_allfail (fails_at : Nat → Bool) :
    ∀ (r i : Nat), 1 ≤ r → (∀ j, j < r → fails_at (i + j) = true) →
    retry_go fails_at r i =
      ⟨true, r, r, 1, (List.range (r - 1)).map (fun j => 2 ^ (i + j))⟩ := by
  intro r
  induction r with
  | zero => intro i h; omega
  | succ r' ih =>
    intro i _ hfail
    unfold retry_go
    have h0 : fails_at i = true := by
      have := hfail 0 (by omega)
      simpa using this
    rw [h0]
    simp only [if_true]
    by_cases hr : r' = 0
    · subst hr
      simp
    · rw [if_neg hr]
      have hfail' : ∀ j, j < r' → fails_at (i + 1 + j) = true := by
        intro j hj
        have := hfail (j + 1) (by omega)
        have harith : i + (j + 1) = i + 1 + j := by omega
        rwa [harith] at this
      rw [ih (i + 1) (by omega) hfail']
      simp only
      congr 1
      have hsplit : r' = (r' - 1) + 1 := by omega
      rw [Nat.succ_sub_one]
      rw [hsplit, List.range_succ_eq_map, List.map_cons, List.map_map]
      simp only [Nat.add_zero]
      congr 1
      apply List.map_congr_left
      intro a ha
      simp only [Function.comp_apply]
      congr 1
      omega

/-- C3: for each sink upsert with `retry_attempts = n`: failing on
attempts `1..K-1` and succeeding on attempt `K ≤ n` yields a
non-raising run with exactly `K` attempts, `K-1` warning logs, no
error log, and backoff delays `2^0, 2^1, …` (so the delay slept before
attempt `i+1` is `2^(i-1)`); failing on all `n` attempts yields a raise
after exactly `n` attempts; and the recorded delays are non-decreasing
across attempts. -/
theorem retry_law (n K : Nat) (fails_at : Nat → Bool) :
    (1 ≤ K → K ≤ n → (∀ i, i < K - 1 → fails_at i = true) →
      fails_at (K - 1) = false →
      upsert_with_retry n fails_at =
        ⟨false, K, K - 1, 0, (List.range (K - 1)).map (fun j => 2 ^ j)⟩) ∧
    (1 ≤ n → (∀ i, i < n → fails_at i = true) →
      upsert_with_retry n fails_at =
        ⟨true, n, n, 1, (List.range (n - 1)).map (fun j => 2 ^ j)⟩) ∧
    (∀ (j : Nat) (h1 : j < (upsert_with_retry n fails_at).delays.length)
        (h2 : j + 1 < (upsert_with_retry n fails_at).delays.length),
      (upsert_with_retry n fails_at).delays[j] ≤
        (upsert_with_retry n fails_at).delays[j + 1]) := by
  have hshape : ∀ (r i : Nat), (retry_go fails_at r i).delays =
      (List.range ((retry_go fails_at r i).attempts - 1)).map
        (fun j => 2 ^ (i + j)) := by
    intro r
    induction r with
    | zero => intro i; simp [retry_go]
    | succ r' ih =>
      intro i
      have hpos : ∀ i', 1 ≤ r' → 1 ≤ (retry_go fails_at r' i').attempts := by
        intro i' hr'
        match r', hr' with
        | r'' + 1, _ =>
          unfold retry_go
          by_cases hf : fails_at i'
          · rw [hf]
            simp only [if_true]
            split <;> simp
          · rw [Bool.not_eq_true] at hf
            rw [hf]
            simp
      unfold retry_go
      by_cases hf : fails_at i
      · rw [hf]
        simp only [if_true]
        by_cases hr : r' = 0
        · rw [if_pos hr]
          simp
        · rw [if_neg hr]
          simp only
          rw [ih (i + 1)]
          have ha : 1 ≤ (retry_go fails_at r' (i + 1)).attempts :=
            hpos (i + 1) (by omega)
          rw [Nat.add_sub_cancel]
          have hsplit : (retry_go fails_at r' (i + 1)).attempts =
              ((retry_go fails_at r' (i + 1)).attempts - 1) + 1 := by omega
          rw [hsplit, List.range_succ_eq_map, List.map_cons, List.map_map]
          rw [← hsplit]
          simp only [Nat.add_zero]
          congr 1
          apply List.map_congr_left
          intro a ha'
          simp only [Function.comp_apply]
          congr 1
          omega
      · rw [Bool.not_eq_true] at hf
        rw [hf]
        simp
  refine ⟨?_, ?_, ?_⟩
  · intro hK1 hKn hfail hsucc
    have h := retry_go_success fails_at (K - 1) n 0 (by omega)
      (by intro j hj; simpa using hfail j hj) (by simpa using hsucc)
    unfold upsert_with_retry
    rw [h]
    have hK : K - 1 + 1 = K := by omega
    simp [hK]
  · intro hn hfail
    have h := retry_go_allfail fails_at n 0 hn
      (by intro j hj; simpa using hfail j hj)
    unfold upsert_with_retry
    rw [h]
    simp
  · intro j h1 h2
    have hd := hshape n 0
    unfold upsert_with_retry at *
    simp only [hd, List.getElem_map, List.getElem_range]
    exact Nat.pow_le_pow_right (by omega) (by omega)

/-- Witness for `retry_law`: with three configured attempts, a sink
that fails once then succeeds raises nothing, logs one warning and
sleeps once; a sink that always fails raises after both of its two
attempts. -/
theorem retry_law_witness :
    upsert_with_retry 3 (fun i => i == 0) =
      ⟨false, 2, 1, 0, [1]⟩ ∧
    upsert_with_retry 2 (fun _ => true) = ⟨true, 2, 2, 1, [1]⟩ := by
  constructor
  · have h := (retry_law 3 2 (fun i => i == 0)).1 (by omega) (by omega)
      (by decide) (by decide)
    simpa using h
  · have h := (retry_law 2 2 (fun _ => true)).2.1 (by omega) (by decide)
    simpa using h

/-! ## Stats partition after validation (C10) -/

theorem process_go_counts (min_content_length : Nat) (docs : List Doc) :
    ∀ (st : DedupState) (vd : List ProcessedDoc) (imgs : List EnhancedImage)
      (stats : IndexingStats),
      (process_and_validate_go min_content_length docs st vd imgs
          stats).stats.successful_docs +
        (process_and_validate_go min_content_length docs st vd imgs
          stats).stats.failed_docs +
        (process_and_validate_go min_content_length docs st vd imgs
          stats).stats.duplicate_docs =
        vd.length + docs.length + stats.failed_docs + stats.duplicate_docs ∧
      (process_and_validate_go min_content_length docs st vd imgs
          stats).stats.total_docs = stats.total_docs := by
  induction docs with
  | nil =>
    intro st vd imgs stats
    simp only [process_and_validate_go, List.length_nil]
    exact ⟨by omega, by trivial⟩
  | cons d rest ih =>
    intro st vd imgs stats
    obtain ⟨t0, s0, f0, d0, ti0, si0, fi0⟩ := stats
    rcases hv : validate_document min_content_length st.url_cache d with
      ⟨is_valid, reason⟩
    match is_valid with
    | true =>
      by_cases hmem : compute_content_hash d ∈ st.content_hashes
      · simp only [process_and_validate_go, hv, if_true, if_pos hmem,
          List.length_cons]
        have h := ih st vd imgs ⟨t0, s0, f0, d0 + 1, ti0, si0, fi0⟩
        dsimp only at h ⊢
        omega
      · simp only [process_and_validate_go, hv, if_true, if_neg hmem,
          List.length_cons]
        have h := ih
          { url_cache := d.url :: st.url_cache,
            content_hashes := compute_content_hash d :: st.content_hashes }
          (vd ++ [⟨d, generate_doc_id d.url, compute_content_hash d⟩])
          (imgs ++ extract_and_process_images d)
          ⟨t0, s0, f0, d0, ti0 + (extract_and_process_images d).length, si0, fi0⟩
        simp only [List.length_append, List.length_cons, List.length_nil] at h
        omega
    | false =>
      by_cases hdup : containsSeq "duplicate".data (pyLower reason).data = true
      · simp only [process_and_validate_go, hv, Bool.false_eq_true, if_false,
          if_pos hdup, List.length_cons]
        have h := ih st vd imgs ⟨t0, s0, f0, d0 + 1, ti0, si0, fi0⟩
        dsimp only at h ⊢
        omega
      · simp only [process_and_validate_go, hv, Bool.false_eq_true, if_false,
          if_neg hdup, List.length_cons]
        have h := ih st vd imgs ⟨t0, s0, f0 + 1, d0, ti0, si0, fi0⟩
        dsimp only at h ⊢
        omega

/-- C10: after the validation/deduplication phase of `index_batch`, the
stats counters partition the input batch: `total_docs` equals the batch
length and equals `successful_docs + failed_docs + duplicate_docs`. -/
theorem stats_partition (min_content_length : Nat) (st : DedupState)
    (documents : List Doc) :
    (index_batch_phase1 min_content_length st documents).stats.total_docs =
      documents.length ∧
    (index_batch_phase1 min_content_length st documents).stats.total_docs =
      (index_batch_phase1 min_content_length st documents).stats.successful_docs +
      (index_batch_phase1 min_content_length st documents).stats.failed_docs +
      (index_batch_phase1 min_content_length st documents).stats.duplicate_docs := by
  have h := process_go_counts min_content_length documents st [] []
    { total_docs := documents.length }
  unfold index_batch_phase1 process_and_validate_batch
  simp only [List.length_nil] at h
  omega

/-! ## Validation characterization (C9) -/

theorem containsSeq_subset (needle hay : List Char)
    (h : containsSeq needle hay = true) : ∀ c ∈ needle, c ∈ hay := by
  induction hay with
  | nil =>
    unfold containsSeq at h
    intro c hc
    have : needle = [] := by simpa using h
    subst this
    simp at hc
  | cons a rest ih =>
    unfold containsSeq at h
    simp only [Bool.or_eq_true] at h
    intro c hc
    rcases h with hpre | hrest
    · have hp : needle <+: a :: rest := by simpa using hpre
      exact hp.subset hc
    · exact List.mem_cons_of_mem a (ih hrest c hc)

def digitChars : List Char := ['0', '1', '2', '3', '4', '5', '6', '7', '8', '9']

theorem digitChar_mem_digitChars (n : Nat) (h : n < 10) :
    Nat.digitChar n ∈ digitChars := by
  interval_cases n <;> decide

theorem toDigitsCore_digits (f : Nat) : ∀ (n : Nat) (acc : List Char),
    (∀ c ∈ acc, c ∈ digitChars) →
    ∀ c ∈ Nat.toDigitsCore 10 f n acc, c ∈ digitChars := by
  induction f with
  | zero =>
    intro n acc hacc c hc
    unfold Nat.toDigitsCore at hc
    exact hacc c hc
  | succ f ih =>
    intro n acc hacc c hc
    unfold Nat.toDigitsCore at hc
    simp only at hc
    have hext : ∀ c' ∈ (n % 10).digitChar :: acc, c' ∈ digitChars := by
      intro c' hc'
      rcases List.mem_cons.mp hc' with h | h
      · subst h
        exact digitChar_mem_digitChars _ (Nat.mod_lt _ (by omega))
      · exact hacc c' h
    split at hc
    · exact hext c hc
    · exact ih (n / 10) ((n % 10).digitChar :: acc) hext c hc

theorem toString_nat_digits (n : Nat) : ∀ c ∈ (toString n).data, c ∈ digitChars := by
  intro c hc
  have : (toString n).data = Nat.toDigitsCore 10 (n + 1) n [] := rfl
  rw [this] at hc
  exact toDigitsCore_digits (n + 1) n [] (by simp) c hc

/-- The "Content too short" reason never triggers the duplicate
dispatch, whatever the interpolated character count. -/
theorem short_reason_not_duplicate (n : Nat) :
    containsSeq "duplicate".data
      (pyLower ("Content too short (" ++ toString n ++ " chars)")).data = false := by
  by_contra hc
  rw [Bool.not_eq_false] at hc
  have hp : 'p' ∈ (pyLower ("Content too short (" ++ toString n ++ " chars)")).data :=
    containsSeq_subset _ _ hc 'p' (by decide)
  have hdata : (pyLower ("Content too short (" ++ toString n ++ " chars)")).data =
      ("Content too short (".data ++ (toString n).data ++ " chars)".data).map
        Char.toLower := by
    show (("Content too short (" ++ toString n ++ " chars)").data).map Char.toLower = _
    rw [String.data_append, String.data_append]
  rw [hdata] at hp
  rcases List.mem_map.mp hp with ⟨c, hcmem, hlow⟩
  rcases List.mem_append.mp hcmem with hcmem' | hsuf
  · rcases List.mem_append.mp hcmem' with hpre | hdig
    · revert hlow
      have : ∀ c' ∈ "Content too short (".data, Char.toLower c' ≠ 'p' := by decide
      exact this c hpre
    · revert hlow
      have hd := toString_nat_digits n c hdig
      have : ∀ c' ∈ digitChars, Char.toLower c' ≠ 'p' := by decide
      exact this c hd
  · revert hlow
    have : ∀ c' ∈ " chars)".data, Char.toLower c' ≠ 'p' := by decide
    exact this c hsuf

/-- C9: validation rejects with a reason that is counted as failed (not
as duplicate) exactly on records with an empty URL, or with both title
and body text empty, or with non-empty body text whose
whitespace-stripped length is below the configured minimum; in
particular a record with empty body text, a non-empty title, a
non-empty URL and no cache hit passes validation, and a record with
both title and body empty is rejected. -/
theorem validation_failed_characterization (min_content_length : Nat)
    (url_cache : List String) (doc : Doc) :
    (((validate_document min_content_length url_cache doc).1 = false ∧
      containsSeq "duplicate".data
        (pyLower (validate_document min_content_length url_cache doc).2).data
          = false) ↔
      (doc.url = "" ∨ (doc.title = "" ∧ doc.cleaned_text = "") ∨
        (doc.cleaned_text ≠ "" ∧
          (pyStrip doc.cleaned_text).length < min_content_length))) ∧
    (doc.url ≠ "" → doc.title ≠ "" → doc.cleaned_text = "" →
      pyStrip doc.url ∉ url_cache →
      (validate_document min_content_length url_cache doc).1 = true) ∧
    (doc.title = "" → doc.cleaned_text = "" →
      (validate_document min_content_length url_cache doc).1 = false) := by
  unfold validate_document
  split_ifs with h1 h2 h3 h4
  · refine ⟨?_, fun hu _ _ _ => absurd h1 hu, fun _ _ => rfl⟩
    have hc : containsSeq "duplicate".data (pyLower "Missing URL").data = false := by
      decide
    simp [hc, h1]
  · refine ⟨?_, fun _ ht _ _ => absurd h2.1 ht, fun _ _ => rfl⟩
    have hc : containsSeq "duplicate".data
        (pyLower "Missing both title and content").data = false := by decide
    simp [hc, h2.1, h2.2]
  · refine ⟨?_, fun _ _ hcl _ => absurd hcl h3.1, fun _ _ => rfl⟩
    have hc := short_reason_not_duplicate doc.cleaned_text.length
    simp [hc, h3.1, h3.2]
  · refine ⟨?_, fun _ _ _ hnotin => absurd h4 hnotin, fun _ _ => rfl⟩
    have hc : containsSeq "duplicate".data (pyLower "Duplicate URL").data = true := by
      decide
    simp [hc, h1, h2, h3]
  · refine ⟨?_, fun _ _ _ _ => rfl, fun ht hcl => absurd ⟨ht, hcl⟩ h2⟩
    simp [h1, h2, h3]

/-- Witness for `validation_failed_characterization`: a record with a
title and empty body passes, a fully empty record is rejected. -/
theorem validation_failed_characterization_witness :
    (validate_document 5 [] { url := "u", title := "t" }).1 = true ∧
    (validate_document 5 [] ({} : Doc)).1 = false :=
  ⟨(validation_failed_characterization 5 [] { url := "u", title := "t" }).2.1
      (by decide) (by decide) (by decide) (by simp),
    (validation_failed_characterization 5 [] ({} : Doc)).2.2 (by decide) (by decide)⟩

/-- C9 counterexample: the code tests the whitespace-stripped body
length against the minimum, not the raw length.  With minimum 3, the
record with body `"a  "` (raw length 3, stripped length 1) is outside
all three rejection conditions of the claim as stated — its URL and
title are non-empty and its body text is not shorter than the minimum —
yet validation rejects it as failed. -/
theorem validation_raw_length_counterexample :
    (validate_document 3 [] { url := "u", title := "t", cleaned_text := "a  " }).1
        = false ∧
    ¬ (({ url := "u", title := "t", cleaned_text := "a  " } : Doc).url = "") ∧
    ¬ (({ url := "u", title := "t", cleaned_text := "a  " } : Doc).title = "" ∧
        ({ url := "u", title := "t", cleaned_text := "a  " } : Doc).cleaned_text = "") ∧
    ¬ (("a  " : String).length < 3) := by
  refine ⟨?_, by decide, by decide, by decide⟩
  decide

/-! ## Deduplication (C5, C6) -/

theorem validate_document_accepts (min_content_length : Nat)
    (url_cache : List String) (d : Doc) (hu : d.url ≠ "")
    (hv : ¬ (d.title = "" ∧ d.cleaned_text = ""))
    (hlen : d.cleaned_text ≠ "" →
      min_content_length ≤ (pyStrip d.cleaned_text).length)
    (hcache : pyStrip d.url ∉ url_cache) :
    validate_document min_content_length url_cache d = (true, "Valid") := by
  unfold validate_document
  rw [if_neg hu, if_neg hv, if_neg ?_, if_neg hcache]
  rintro ⟨hne, hlt⟩
  exact absurd hlt (not_lt.mpr (hlen hne))

theorem validate_document_dup_url (min_content_length : Nat)
    (url_cache : List String) (d : Doc) (hu : d.url ≠ "")
    (hv : ¬ (d.title = "" ∧ d.cleaned_text = ""))
    (hlen : d.cleaned_text ≠ "" →
      min_content_length ≤ (pyStrip d.cleaned_text).length)
    (hcache : pyStrip d.url ∈ url_cache) :
    validate_document min_content_length url_cache d = (false, "Duplicate URL") := by
  unfold validate_document
  rw [if_neg hu, if_neg hv, if_neg ?_, if_pos hcache]
  rintro ⟨hne, hlt⟩
  exact absurd hlt (not_lt.mpr (hlen hne))

/-- C6: two otherwise-valid records with different URLs but identical
title and identical body text, reaching the validator within one
dedup-cache lifetime and not colliding with earlier cache entries,
yield exactly one accepted document; the other is counted as duplicate
(never as failed), because the content hash is computed over
`title + "|" + body` and checked against the seen-hash set. -/
theorem content_dedup (min_content_length : Nat) (st : DedupState)
    (d1 d2 : Doc)
    (hu1 : d1.url ≠ "") (hu2 : d2.url ≠ "") (hne : d1.url ≠ d2.url)
    (ht : d1.title = d2.title) (hc : d1.cleaned_text = d2.cleaned_text)
    (hv : ¬ (d1.title = "" ∧ d1.cleaned_text = ""))
    (hlen : d1.cleaned_text ≠ "" →
      min_content_length ≤ (pyStrip d1.cleaned_text).length)
    (hcache : pyStrip d1.url ∉ st.url_cache)
    (hhash : compute_content_hash d1 ∉ st.content_hashes) :
    (process_and_validate_batch min_content_length [d1, d2] {} st).valid_docs.length
        = 1 ∧
    (process_and_validate_batch min_content_length [d1, d2] {} st).stats.duplicate_docs
        = 1 ∧
    (process_and_validate_batch min_content_length [d1, d2] {} st).stats.failed_docs
        = 0 := by
  have hv1 := validate_document_accepts min_content_length st.url_cache d1
    hu1 hv hlen hcache
  have hheq : compute_content_hash d2 = compute_content_hash d1 := by
    unfold compute_content_hash
    rw [ht, hc]
  have hv2' : ¬ (d2.title = "" ∧ d2.cleaned_text = "") := by
    rw [← ht, ← hc]; exact hv
  have hlen2 : d2.cleaned_text ≠ "" →
      min_content_length ≤ (pyStrip d2.cleaned_text).length := by
    rw [← hc]; exact hlen
  by_cases hmem2 : pyStrip d2.url ∈ d1.url :: st.url_cache
  · have hv2 := validate_document_dup_url min_content_length
      (d1.url :: st.url_cache) d2 hu2 hv2' hlen2 hmem2
    have hdup : containsSeq "duplicate".data (pyLower "Duplicate URL").data
        = true := by decide
    simp only [process_and_validate_batch, process_and_validate_go, hv1, hv2,
      if_true, if_neg hhash, if_pos hdup]
    norm_num
  · have hv2 := validate_document_accepts min_content_length
      (d1.url :: st.url_cache) d2 hu2 hv2' hlen2 hmem2
    have hmemh : compute_content_hash d2 ∈
        compute_content_hash d1 :: st.content_hashes := by
      rw [hheq]; exact List.mem_cons_self _ _
    simp only [process_and_validate_batch, process_and_validate_go, hv1, hv2,
      if_true, if_neg hhash, if_pos hmemh]
    norm_num

/-- Witness for `content_dedup`: two concrete records with distinct
URLs and the same title and body. -/
theorem content_dedup_witness :
    (process_and_validate_batch 0
      [{ url := "a", title := "T", cleaned_text := "hello" },
       { url := "b", title := "T", cleaned_text := "hello" }] {} {}).stats.duplicate_docs
        = 1 :=
  (content_dedup 0 {} { url := "a", title := "T", cleaned_text := "hello" }
    { url := "b", title := "T", cleaned_text := "hello" }
    (by decide) (by decide) (by decide) (by decide) (by decide)
    (by decide) (fun _ => Nat.zero_le _) (by decide) (by decide)).2.1

/-- C5 (amended): within one dedup-cache lifetime, feeding two records
with the same URL string to the validator — in the same batch or in
consecutive batches — yields exactly one accepted document, the second
occurrence being counted as duplicate and not as failed, provided the
URL string carries no surrounding whitespace (it equals its own strip)
and both records pass the basic validity checks. -/
theorem url_dedup (min_content_length : Nat) (st : DedupState) (d1 d2 : Doc)
    (hu : d1.url ≠ "") (hsame : d2.url = d1.url)
    (hstrip : pyStrip d1.url = d1.url)
    (hv1 : ¬ (d1.title = "" ∧ d1.cleaned_text = ""))
    (hlen1 : d1.cleaned_text ≠ "" →
      min_content_length ≤ (pyStrip d1.cleaned_text).length)
    (hv2 : ¬ (d2.title = "" ∧ d2.cleaned_text = ""))
    (hlen2 : d2.cleaned_text ≠ "" →
      min_content_length ≤ (pyStrip d2.cleaned_text).length)
    (hcache : d1.url ∉ st.url_cache)
    (hhash : compute_content_hash d1 ∉ st.content_hashes) :
    ((process_and_validate_batch min_content_length [d1, d2] {} st).valid_docs.length
        = 1 ∧
      (process_and_validate_batch min_content_length [d1, d2] {} st).stats.duplicate_docs
        = 1 ∧
      (process_and_validate_batch min_content_length [d1, d2] {} st).stats.failed_docs
        = 0) ∧
    ((process_and_validate_batch min_content_length [d1] {} st).valid_docs.length
        = 1 ∧
      (process_and_validate_batch min_content_length [d2] {}
        (process_and_validate_batch min_content_length [d1] {} st).state).valid_docs.length
        = 0 ∧
      (process_and_validate_batch min_content_length [d2] {}
        (process_and_validate_batch min_content_length [d1] {} st).state).stats.duplicate_docs
        = 1 ∧
      (process_and_validate_batch min_content_length [d2] {}
        (process_and_validate_batch min_content_length [d1] {} st).state).stats.failed_docs
        = 0) := by
  have hstrip' : pyStrip d1.url ∉ st.url_cache := by rwa [hstrip]
  have ha1 := validate_document_accepts min_content_length st.url_cache d1
    hu hv1 hlen1 hstrip'
  have hu2 : d2.url ≠ "" := by rwa [hsame]
  have hmem2 : pyStrip d2.url ∈ d1.url :: st.url_cache := by
    rw [hsame, hstrip]
    exact List.mem_cons_self _ _
  have ha2 := validate_document_dup_url min_content_length
    (d1.url :: st.url_cache) d2 hu2 hv2 hlen2 hmem2
  have hdup : containsSeq "duplicate".data (pyLower "Duplicate URL").data
      = true := by decide
  constructor
  · simp only [process_and_validate_batch, process_and_validate_go, ha1, ha2,
      if_true, if_neg hhash, if_pos hdup]
    norm_num
  · simp only [process_and_validate_batch, process_and_validate_go, ha1, ha2,
      if_true, if_neg hhash, if_pos hdup]
    norm_num

/-- Witness for `url_dedup`: the same clean URL fed twice with
different contents. -/
theorem url_dedup_witness :
    (process_and_validate_batch 0
      [{ url := "u", title := "A", cleaned_text := "xx" },
       { url := "u", title := "B", cleaned_text := "yy" }] {} {}).stats.duplicate_docs
        = 1 :=
  ((url_dedup 0 {} { url := "u", title := "A", cleaned_text := "xx" }
    { url := "u", title := "B", cleaned_text := "yy" }
    (by decide) (by decide) (by decide) (by decide) (fun _ => Nat.zero_le _)
    (by decide) (fun _ => Nat.zero_le _) (by decide) (by decide)).1).2.1

/-- C5 counterexample: the URL-dedup cache stores the raw URL but is
probed with the stripped URL.  Feeding the same URL string `" u"`
(leading space) twice with different contents, both records are
accepted: `successful_docs = 2` and `duplicate_docs = 0`, refuting
"exactly one accepted document ... the second occurrence is counted as
duplicate". -/
theorem url_dedup_counterexample :
    ({ url := " u", title := "A", cleaned_text := "xx" } : Doc).url =
      ({ url := " u", title := "B", cleaned_text := "yy" } : Doc).url ∧
    (process_and_validate_batch 0
      [{ url := " u", title := "A", cleaned_text := "xx" },
       { url := " u", title := "B", cleaned_text := "yy" }] {} {}).stats.successful_docs
        = 2 ∧
    (process_and_validate_batch 0
      [{ url := " u", title := "A", cleaned_text := "xx" },
       { url := " u", title := "B", cleaned_text := "yy" }] {} {}).stats.duplicate_docs
        = 0 := by
  refine ⟨rfl, ?_, ?_⟩ <;> decide

/-! ## Dual-sink sequencing (C1) -/

/-- C1 (amended): when the Qdrant upsert of document points fails on
all retry attempts, the raised error propagates out of
`_create_and_upsert_points` before the Supabase call is reached: the
relational upsert is not attempted at all (and no stats field records
either sink outcome).  When the Qdrant upserts return without raising
(here: no image points and a non-raising document upsert), the Supabase
call is reached and its outcome is exactly that of its own retry loop,
independent of the vector sink; nothing is rolled back. -/
theorem dual_sink_sequencing {P Q R : Type} (n bs : Nat)
    (doc_points : List P) (img_points : List Q) (rows : List R)
    (qf : Nat → Bool) (imf : Nat → Nat → Bool) (sf : Nat → Bool) :
    (doc_points ≠ [] → 1 ≤ n → (∀ i, i < n → qf i = true) →
      (create_and_upsert_points n bs doc_points img_points rows qf imf
        sf).raised = true ∧
      (create_and_upsert_points n bs doc_points img_points rows qf imf
        sf).supabase_called = false ∧
      (create_and_upsert_points n bs doc_points img_points rows qf imf
        sf).supabase = none) ∧
    ((upsert_with_retry n qf).raised = false → img_points = [] →
      (create_and_upsert_points n bs doc_points img_points rows qf imf
        sf).supabase_called = true ∧
      (create_and_upsert_points n bs doc_points img_points rows qf imf
        sf).supabase =
        (if rows.isEmpty then none else some (upsert_with_retry n sf))) := by
  constructor
  · intro hdp hn hfail
    have hempty : doc_points.isEmpty = false := by
      simpa using hdp
    have hraise : (upsert_with_retry n qf).raised = true := by
      unfold upsert_with_retry
      rw [retry_go_allfail qf n 0 hn (by intro j hj; simpa using hfail j hj)]
    unfold create_and_upsert_points
    simp [hempty, hraise]
  · intro hok himg
    subst himg
    unfold create_and_upsert_points
    by_cases hdp : doc_points.isEmpty
    · simp [hdp]
    · rw [Bool.not_eq_true] at hdp
      simp [hdp, hok]

/-- Witness for `dual_sink_sequencing`: a batch with one document point
and one Supabase row; with an always-failing vector sink the relational
sink is never called, with a succeeding vector sink it is. -/
theorem dual_sink_sequencing_witness :
    (create_and_upsert_points 2 100 ["p"] ([] : List Nat) ["r"]
      (fun _ => true) (fun _ _ => false) (fun _ => false)).supabase_called
        = false ∧
    (create_and_upsert_points 2 100 ["p"] ([] : List Nat) ["r"]
      (fun _ => false) (fun _ _ => false) (fun _ => false)).supabase_called
        = true := by
  constructor
  · exact ((dual_sink_sequencing 2 100 ["p"] ([] : List Nat) ["r"]
      (fun _ => true) (fun _ _ => false) (fun _ => false)).1
        (by decide) (by omega) (fun i _ => rfl)).2.1
  · exact ((dual_sink_sequencing 2 100 ["p"] ([] : List Nat) ["r"]
      (fun _ => false) (fun _ _ => false) (fun _ => false)).2
        (by decide) rfl).1

/-- C1 counterexample: with three retry attempts, one document point,
no images and one pending Supabase row, a vector sink that fails on
every attempt makes `_create_and_upsert_points` raise before the
Supabase call: the relational upsert is never attempted, refuting "the
relational-store upsert is still attempted". -/
theorem dual_sink_counterexample :
    (create_and_upsert_points 3 100 ["p"] ([] : List Nat) ["r"]
      (fun _ => true) (fun _ _ => false) (fun _ => false)).supabase_called
        = false ∧
    (create_and_upsert_points 3 100 ["p"] ([] : List Nat) ["r"]
      (fun _ => true) (fun _ _ => false) (fun _ => false)).raised = true ∧
    (["r"] : List String) ≠ [] := by
  refine ⟨?_, ?_, by decide⟩ <;> decide

/-! ## Image caption / embedding alignment (C2) -/

def img_no_caption : EnhancedImage := { src := "s1", id := "id1" }

def img_cat : EnhancedImage := { src := "s2", alt := "cat", id := "id2" }

/-- C2 at the failing input: in a batch whose images are
`[img_no_caption, img_cat]`, the empty caption is excluded from the
Embedder call (only `"cat"` is encoded), but the point loop pairs
embeddings with images positionally: a vector-store point IS created
for the caption-less image, and it carries the vector computed from the
other image's caption, while the captioned image receives no point
(`encode` instantiated as the identity, so a vector is the caption it
was computed from). -/
theorem image_embedding_misalignment :
    build_image_caption img_no_caption = "" ∧
    generate_image_embeddings (fun s => s) [img_no_caption, img_cat]
        = ["cat"] ∧
    (create_image_points [img_no_caption, img_cat]
      (generate_image_embeddings (fun s => s) [img_no_caption, img_cat])).1
        = [{ id := "id1", vector := "cat" }] := by
  refine ⟨?_, ?_, ?_⟩ <;> decide

/-! ## Consumption-loop flush policy (C4) -/

theorem consumer_go_spec {α : Type} (batch_size : Nat)
    (max_docs : Option Nat) (events : List (PollEvent α)) :
    ∀ (batch : List α) (consumed failed : Nat),
      batch.length < batch_size →
      (∀ l ∈ (consumer_go batch_size max_docs events batch consumed
          failed).flushes, l.length = batch_size) ∧
      (consumer_go batch_size max_docs events batch consumed
        failed).pending.length < batch_size ∧
      ∃ new : List α,
        (consumer_go batch_size max_docs events batch consumed
            failed).flushes.flatten ++
          (consumer_go batch_size max_docs events batch consumed
            failed).pending = batch ++ new ∧
        new.length + consumed =
          (consumer_go batch_size max_docs events batch consumed
            failed).consumed := by
  induction events with
  | nil =>
    intro batch consumed failed hlt
    refine ⟨by simp [consumer_go], by simpa [consumer_go] using hlt,
      [], by simp [consumer_go], by simp [consumer_go]⟩
  | cons e es ih =>
    intro batch consumed failed hlt
    match e with
    | .silent => exact ih batch consumed failed hlt
    | .errored => exact ih batch consumed failed hlt
    | .message ok d =>
      by_cases hok : ok
      · subst hok
        simp only [consumer_go, if_true]
        by_cases hfull : batch_size ≤ (batch ++ [d]).length
        · rw [if_pos hfull]
          have hsz : (batch ++ [d]).length = batch_size := by
            simp only [List.length_append, List.length_cons,
              List.length_nil] at hfull ⊢
            omega
          by_cases hmax : max_docs_reached max_docs (consumed + 1) = true
          · rw [if_pos hmax]
            refine ⟨?_, ?_, [d], by simp,
              by simp only [List.length_cons, List.length_nil]; omega⟩
            · intro l hl
              have heq : l = batch ++ [d] := by simpa using hl
              rw [heq]
              exact hsz
            · simp only [List.length_nil]
              omega
          · rw [if_neg hmax]
            obtain ⟨hsizes, hpend, new, hjoin, hcount⟩ :=
              ih [] (consumed + 1) failed (by simp only [List.length_nil]; omega)
            dsimp only
            refine ⟨?_, hpend, [d] ++ new, ?_,
              by simp only [List.length_append, List.length_cons,
                List.length_nil]; omega⟩
            · intro l hl
              rcases List.mem_cons.mp hl with h | h
              · rw [h]
                exact hsz
              · exact hsizes l h
            · rw [List.flatten_cons, List.append_assoc, hjoin]
              simp
        · rw [if_neg hfull]
          have hlt' : (batch ++ [d]).length < batch_size := by
            simp only [List.length_append, List.length_cons,
              List.length_nil] at hfull ⊢
            omega
          by_cases hmax : max_docs_reached max_docs (consumed + 1) = true
          · rw [if_pos hmax]
            refine ⟨by intro l hl; simp at hl, hlt', [d], by simp,
              by simp only [List.length_cons, List.length_nil]; omega⟩
          · rw [if_neg hmax]
            obtain ⟨hsizes, hpend, new, hjoin, hcount⟩ :=
              ih (batch ++ [d]) (consumed + 1) failed hlt'
            refine ⟨hsizes, hpend, [d] ++ new, ?_,
              by simp only [List.length_append, List.length_cons,
                List.length_nil]; omega⟩
            rw [hjoin]
            simp
      · rw [Bool.not_eq_true] at hok
        subst hok
        simp only [consumer_go, Bool.false_eq_true, if_false]
        exact ih batch consumed (failed + 1) hlt

/-- C4 (amended): the consumption loop flushes inside the loop only
when the pending count reaches the configured batch size — every
in-loop flush carries exactly `batch_size` records — and there is no
time-based flush: a non-empty batch below the threshold is flushed only
by the post-loop flush once the loop exits (stop event, max-docs break,
or end of the polled stream).  Every consumed record is flushed exactly
once. -/
theorem consumer_flush_policy {α : Type} (batch_size : Nat)
    (max_docs : Option Nat) (events : List (PollEvent α))
    (hbs : 0 < batch_size) :
    (∀ l ∈ (run_consumer batch_size max_docs events).loop_flushes,
      l.length = batch_size) ∧
    (∀ p, (run_consumer batch_size max_docs events).final_flush = some p →
      p ≠ [] ∧ p.length < batch_size) ∧
    ((run_consumer batch_size max_docs events).loop_flushes.flatten ++
      ((run_consumer batch_size max_docs events).final_flush.getD [])).length =
      (run_consumer batch_size max_docs events).consumed := by
  obtain ⟨hsizes, hpend, new, hjoin, hcount⟩ :=
    consumer_go_spec batch_size max_docs events [] 0 0 (by simpa using hbs)
  unfold run_consumer
  refine ⟨hsizes, ?_, ?_⟩
  · intro p hp
    dsimp only at hp
    split at hp
    · exact absurd hp (by simp)
    · next hne =>
      rw [Option.some.injEq] at hp
      subst hp
      exact ⟨by simpa using hne, hpend⟩
  · dsimp only
    split
    · next hemp =>
      rw [List.isEmpty_iff] at hemp
      rw [Option.getD_none, List.append_nil]
      have hj := hjoin
      rw [hemp, List.append_nil, List.nil_append] at hj
      rw [hj]
      omega
    · rw [Option.getD_some, hjoin]
      simp only [List.nil_append]
      omega

/-- Witness for `consumer_flush_policy`: with batch size 2, two decoded
records are flushed exactly once — the flattened in-loop flushes plus
the final flush together carry as many records as were consumed. -/
theorem consumer_flush_policy_witness :
    0 < 2 ∧
    ((run_consumer 2 (none : Option Nat)
        [PollEvent.message true (1 : Nat), PollEvent.message true 2]).loop_flushes.flatten ++
      ((run_consumer 2 (none : Option Nat)
        [PollEvent.message true (1 : Nat),
          PollEvent.message true 2]).final_flush.getD [])).length =
      (run_consumer 2 (none : Option Nat)
        [PollEvent.message true (1 : Nat), PollEvent.message true 2]).consumed :=
  ⟨by omega,
    (consumer_flush_policy 2 none
      [PollEvent.message true (1 : Nat), PollEvent.message true 2] (by omega)).2.2⟩

/-- C4 counterexample: with batch size 2 and no max-docs limit, one
decoded record followed by five empty polls — arbitrarily much
wall-clock time elapsing across the loop iterations — is never flushed
during the loop: `loop_flushes` is empty and the record is still
pending, emitted only by the loop-exit flush.  No maximum-wait flush
exists (nor any such configuration field), refuting "flushed after the
maximum wait without requiring shutdown". -/
theorem consumer_no_time_flush_counterexample :
    (run_consumer 2 none [PollEvent.message true (1 : Nat), PollEvent.silent,
      PollEvent.silent, PollEvent.silent, PollEvent.silent,
      PollEvent.silent]).loop_flushes = [] ∧
    (run_consumer 2 none [PollEvent.message true (1 : Nat), PollEvent.silent,
      PollEvent.silent, PollEvent.silent, PollEvent.silent,
      PollEvent.silent]).final_flush = some [1] := by
  refine ⟨?_, ?_⟩ <;> decide

/-! ## Max-length and boundary law of the embedding text (C8) -/

/-- A sentence boundary (`". "`) or newline starts at index `i`. -/
def boundaryAt (l : List Char) (i : Nat) : Prop :=
  ['.', ' '] <+: l.drop i ∨ ['\n'] <+: l.drop i

instance (l : List Char) (i : Nat) : Decidable (boundaryAt l i) := by
  unfold boundaryAt
  infer_instance

theorem boundaryAt_lt_length (l : List Char) (j : Nat) (h : boundaryAt l j) :
    j < l.length := by
  by_contra hge
  push_neg at hge
  rcases h with h | h <;>
    (rw [List.drop_eq_nil_of_le hge] at h
     exact absurd (List.prefix_nil.mp h) (by decide))

theorem getElem?_of_prefix_drop (l : List Char) (c : Char) (rest : List Char)
    (j : Nat) (h : (c :: rest) <+: l.drop j) : l[j]? = some c := by
  rw [← List.head?_drop]
  obtain ⟨t, ht⟩ := h
  rw [← ht]
  rfl

theorem prefix_drop_of_getElem? (l : List Char) (c : Char) (j : Nat)
    (h : l[j]? = some c) : [c] <+: l.drop j := by
  have hh : (l.drop j).head? = some c := by rw [List.head?_drop]; exact h
  match hm : l.drop j with
  | [] => rw [hm] at hh; simp at hh
  | x :: t =>
    rw [hm] at hh
    simp only [List.head?_cons, Option.some.injEq] at hh
    exact hh ▸ ⟨t, rfl⟩

/-- C8: the final embedding text built by `build_embedding_text` never
exceeds the configured maximum length; and whenever `_smart_truncate`
truncates a text, either a sentence/newline boundary lies beyond 80% of
the limit and the cut is exactly at the last such boundary (the result
is the window prefix through that `'.'` or `'\n'`), or no boundary
qualifies and the cut is at the last space of the window (the last word
boundary — never mid-word), the whole stripped window being kept only
when it holds no space at all. -/
theorem embedding_text_max_length (ctx : BuildCtx) (doc : Doc)
    (text : String) (maxLen : Nat) :
    (build_embedding_text ctx doc).length ≤ ctx.max_embedding_length ∧
    (maxLen < text.length →
      ((∃ b : Nat, boundaryAt (pyTake maxLen text).data b ∧
          4 * maxLen < 5 * b ∧
          (∀ j : Nat, boundaryAt (pyTake maxLen text).data j → j ≤ b) ∧
          smart_truncate text maxLen = pyTake (b + 1) (pyTake maxLen text) ∧
          ((pyTake maxLen text).data[b]? = some '.' ∨
            (pyTake maxLen text).data[b]? = some '\n')) ∨
        ((∀ j : Nat, boundaryAt (pyTake maxLen text).data j → 5 * j ≤ 4 * maxLen) ∧
          ((∃ k : Nat, (pyTake maxLen text).data[k]? = some ' ' ∧
              (∀ j : Nat, (pyTake maxLen text).data[j]? = some ' ' → j ≤ k) ∧
              smart_truncate text maxLen = pyStrip (pyTake k (pyTake maxLen text)))
            ∨ ((∀ j : Nat, (pyTake maxLen text).data[j]? ≠ some ' ') ∧
              smart_truncate text maxLen = pyStrip (pyTake maxLen text)))))) := by
  constructor
  · unfold build_embedding_text
    dsimp only
    split
    · exact smart_truncate_length_le _ _
    · next h =>
      push_neg at h
      exact h
  · intro hgt
    unfold smart_truncate
    rw [if_neg (by omega)]
    dsimp only
    by_cases hcond : 4 * (maxLen : Int) <
        5 * max (pyRfindL ['.', ' '] (pyTake maxLen text).data)
          (pyRfindL ['\n'] (pyTake maxLen text).data)
    · rw [if_pos hcond]
      left
      have hpos : 0 ≤ max (pyRfindL ['.', ' '] (pyTake maxLen text).data)
          (pyRfindL ['\n'] (pyTake maxLen text).data) := by omega
      refine ⟨(max (pyRfindL ['.', ' '] (pyTake maxLen text).data)
          (pyRfindL ['\n'] (pyTake maxLen text).data)).toNat, ?_, ?_, ?_, ?_, ?_⟩
      · rcases le_total (pyRfindL ['.', ' '] (pyTake maxLen text).data)
          (pyRfindL ['\n'] (pyTake maxLen text).data) with hle | hle
        · rw [max_eq_right hle]
          right
          exact pyRfindL_found _ _ _ (by omega)
        · rw [max_eq_left hle]
          left
          exact pyRfindL_found _ _ _ (by omega)
      · omega
      · intro j hj
        have hjlt := boundaryAt_lt_length _ _ hj
        rcases hj with hj | hj
        · have := pyRfindL_maximal ['.', ' '] (pyTake maxLen text).data j
            (by omega) hj
          omega
        · have := pyRfindL_maximal ['\n'] (pyTake maxLen text).data j
            (by omega) hj
          omega
      · rfl
      · rcases le_total (pyRfindL ['.', ' '] (pyTake maxLen text).data)
          (pyRfindL ['\n'] (pyTake maxLen text).data) with hle | hle
        · rw [max_eq_right hle]
          right
          have hfound := pyRfindL_found ['\n'] (pyTake maxLen text).data
            (max (pyRfindL ['.', ' '] (pyTake maxLen text).data)
              (pyRfindL ['\n'] (pyTake maxLen text).data)).toNat (by omega)
          rw [max_eq_right hle] at hfound
          exact getElem?_of_prefix_drop _ _ _ _ hfound
        · rw [max_eq_left hle]
          left
          have hfound := pyRfindL_found ['.', ' '] (pyTake maxLen text).data
            (max (pyRfindL ['.', ' '] (pyTake maxLen text).data)
              (pyRfindL ['\n'] (pyTake maxLen text).data)).toNat (by omega)
          rw [max_eq_left hle] at hfound
          exact getElem?_of_prefix_drop _ _ _ _ hfound
    · rw [if_neg hcond]
      right
      constructor
      · intro j hj
        have hjlt := boundaryAt_lt_length _ _ hj
        rcases hj with hj | hj
        · have := pyRfindL_maximal ['.', ' '] (pyTake maxLen text).data j
            (by omega) hj
          omega
        · have := pyRfindL_maximal ['\n'] (pyTake maxLen text).data j
            (by omega) hj
          omega
      · unfold rsplitSpaceHead
        dsimp only
        by_cases hr : 0 ≤ pyRfindL [' '] (pyTake maxLen text).data
        · rw [if_pos hr]
          left
          refine ⟨(pyRfindL [' '] (pyTake maxLen text).data).toNat, ?_, ?_, rfl⟩
          · have hfound := pyRfindL_found [' '] (pyTake maxLen text).data
              (pyRfindL [' '] (pyTake maxLen text).data).toNat (by omega)
            exact getElem?_of_prefix_drop _ _ _ _ hfound
          · intro j hj
            have hjlt : j < (pyTake maxLen text).data.length := by
              rcases List.getElem?_eq_some.mp hj with ⟨hlt, _⟩
              exact hlt
            have := pyRfindL_maximal [' '] (pyTake maxLen text).data j
              (by omega) (prefix_drop_of_getElem? _ _ _ hj)
            omega
        · rw [if_neg hr]
          right
          constructor
          · intro j hj
            have hjlt : j < (pyTake maxLen text).data.length := by
              rcases List.getElem?_eq_some.mp hj with ⟨hlt, _⟩
              exact hlt
            have hmaxi := pyRfindL_maximal [' '] (pyTake maxLen text).data j
              (by omega) (prefix_drop_of_getElem? _ _ _ hj)
            omega
          · rfl

/-- Witness for `embedding_text_max_length`: truncating
`"abcdefghi. xyz"` to 11 characters cuts at the sentence boundary, the
prefix through the period. -/
theorem embedding_text_max_length_witness :
    smart_truncate "abcdefghi. xyz" 11 =
      pyTake 10 (pyTake 11 "abcdefghi. xyz") := by
  have h := (embedding_text_max_length
    { max_embedding_length := 8192, max_heading_length := 200,
      extract_url_keywords := fun _ => "", extract_domain_context := fun _ => "",
      urlparse_netloc := fun _ => "" } {} "abcdefghi. xyz" 11).2 (by decide)
  rcases h with ⟨b, hb, harith, hmaxi, heq, hchar⟩ | ⟨hno, _⟩
  · have hblt := boundaryAt_lt_length _ _ hb
    have hlen : (pyTake 11 "abcdefghi. xyz").data.length = 11 := by decide
    have hb9 : b = 9 := by
      have h10 : b ≠ 10 := by
        intro hb10
        rw [hb10] at hb
        exact absurd hb (by decide)
      omega
    rw [hb9] at heq
    exact heq
  · exact absurd (hno 9 (by decide)) (by decide)

/-! ## The long-body excerpt law (C7) -/

theorem pyTake_data (n : Nat) (s : String) :
    (pyTake n s).data = s.data.take n := rfl

theorem pyLastN_data (n : Nat) (s : String) :
    (pyLastN n s).data = s.data.drop (s.data.length - n) := rfl

theorem string_eq_of_data (s t : String) (h : s.data = t.data) : s = t := by
  cases s
  cases t
  exact congrArg String.mk h

theorem suffix_getLast_eq {α : Type} (x l : List α)
    (h : x <:+ l) (hx : x ≠ []) (hl : l ≠ []) : x.getLast hx = l.getLast hl := by
  have hrev : x.reverse <+: l.reverse := List.reverse_prefix.mpr h
  have := prefix_head_eq x.reverse l.reverse hrev (by simpa using hx)
    (by simpa using hl)
  rwa [List.head_reverse, List.head_reverse] at this

/-- C7 (amended): for a document whose stripped body text has length
`L > 4000`, as long as the assembled embedding text does not exceed the
configured maximum (so the final smart truncation does not fire), the
embedding text contains, in place of the body, exactly the first 2000
characters of the stripped body, the literal `" ... "` separator, and
the last 1000 characters — independent of `L`. -/
theorem body_excerpt_law (ctx : BuildCtx) (doc : Doc)
    (hlong : 4000 < (pyStrip doc.cleaned_text).length)
    (hfit : (assembled_text ctx doc).length ≤ ctx.max_embedding_length) :
    ∃ pre suf : String,
      build_embedding_text ctx doc =
        pre ++ (pyTake 2000 (pyStrip doc.cleaned_text) ++ " ... " ++
          pyLastN 1000 (pyStrip doc.cleaned_text)) ++ suf := by
  have hlen : 4000 < (pyStrip doc.cleaned_text).data.length := hlong
  have hcl : doc.cleaned_text ≠ "" := by
    intro h
    rw [h] at hlong
    exact absurd hlong (by decide)
  have hcne : (pyStrip doc.cleaned_text).data ≠ [] := by
    intro h
    rw [h] at hlen
    simp at hlen
  -- the excerpt and its character list
  have hexdata : (pyTake 2000 (pyStrip doc.cleaned_text) ++ " ... " ++
      pyLastN 1000 (pyStrip doc.cleaned_text)).data =
      ((pyStrip doc.cleaned_text).data.take 2000 ++ " ... ".data) ++
        (pyStrip doc.cleaned_text).data.drop
          ((pyStrip doc.cleaned_text).data.length - 1000) := by
    rw [String.data_append, String.data_append, pyTake_data, pyLastN_data]
  have htp_ne : (pyStrip doc.cleaned_text).data.take 2000 ≠ [] := by
    intro h
    apply congrArg List.length at h
    simp only [List.length_take, List.length_nil] at h
    omega
  have hdp_ne : (pyStrip doc.cleaned_text).data.drop
      ((pyStrip doc.cleaned_text).data.length - 1000) ≠ [] := by
    intro h
    apply congrArg List.length at h
    simp only [List.length_drop, List.length_nil] at h
    omega
  have hex_ne : (pyTake 2000 (pyStrip doc.cleaned_text) ++ " ... " ++
      pyLastN 1000 (pyStrip doc.cleaned_text)).data ≠ [] := by
    rw [hexdata]
    intro h
    rcases List.append_eq_nil.mp h with ⟨h1, _⟩
    rcases List.append_eq_nil.mp h1 with ⟨h2, _⟩
    exact htp_ne h2
  -- excerpt head is the head of the stripped body, hence not whitespace
  have hpre1 : (pyStrip doc.cleaned_text).data.take 2000 <+:
      (pyTake 2000 (pyStrip doc.cleaned_text) ++ " ... " ++
        pyLastN 1000 (pyStrip doc.cleaned_text)).data := by
    rw [hexdata]
    exact (List.prefix_append _ _).trans (List.prefix_append _ _)
  have hhead_ex : isPySpace ((pyTake 2000 (pyStrip doc.cleaned_text) ++ " ... " ++
      pyLastN 1000 (pyStrip doc.cleaned_text)).data.head hex_ne) = false := by
    rw [← prefix_head_eq _ _ hpre1 htp_ne hex_ne,
      prefix_head_eq _ _ (List.take_prefix 2000 _) htp_ne hcne]
    exact pyStripL_head_not_space _ hcne
  -- excerpt last is the last of the stripped body, hence not whitespace
  have hsuf1 : (pyStrip doc.cleaned_text).data.drop
      ((pyStrip doc.cleaned_text).data.length - 1000) <:+
      (pyTake 2000 (pyStrip doc.cleaned_text) ++ " ... " ++
        pyLastN 1000 (pyStrip doc.cleaned_text)).data := by
    rw [hexdata]
    exact ⟨_, rfl⟩
  have hlast_ex : isPySpace ((pyTake 2000 (pyStrip doc.cleaned_text) ++ " ... " ++
      pyLastN 1000 (pyStrip doc.cleaned_text)).data.getLast hex_ne) = false := by
    rw [← suffix_getLast_eq _ _ hsuf1 hdp_ne hex_ne,
      suffix_getLast_eq _ _ (List.drop_suffix _ _) hdp_ne hcne]
    exact pyStripL_getLast_not_space _ hcne
  -- the excerpt is one of the assembled pieces
  have hmem : (pyTake 2000 (pyStrip doc.cleaned_text) ++ " ... " ++
      pyLastN 1000 (pyStrip doc.cleaned_text)) ∈ build_pieces ctx doc := by
    unfold build_pieces
    refine List.mem_append.mpr (Or.inl ?_)
    refine List.mem_append.mpr (Or.inl ?_)
    refine List.mem_append.mpr (Or.inr ?_)
    rw [if_pos hcl]
    dsimp only
    rw [if_pos hlong]
    exact List.mem_singleton_self _
  have hne_str : (pyTake 2000 (pyStrip doc.cleaned_text) ++ " ... " ++
      pyLastN 1000 (pyStrip doc.cleaned_text)) ≠ "" := by
    intro h
    apply congrArg String.data at h
    exact hex_ne h
  have hmemf : (pyTake 2000 (pyStrip doc.cleaned_text) ++ " ... " ++
      pyLastN 1000 (pyStrip doc.cleaned_text)) ∈
      (build_pieces ctx doc).filter (fun s => s ≠ "") :=
    List.mem_filter.mpr ⟨hmem, by simpa using hne_str⟩
  have hinfix1 := mem_pyJoin_infix " " _ _ hmemf
  have hinfix2 : (pyTake 2000 (pyStrip doc.cleaned_text) ++ " ... " ++
      pyLastN 1000 (pyStrip doc.cleaned_text)).data <:+:
      (assembled_text ctx doc).data :=
    infix_pyStripL _ _ hex_ne hhead_ex hlast_ex hinfix1
  obtain ⟨a, b, hab⟩ := hinfix2
  refine ⟨⟨a⟩, ⟨b⟩, ?_⟩
  unfold build_embedding_text
  dsimp only
  rw [if_neg (not_lt.mpr hfit)]
  apply string_eq_of_data
  rw [String.data_append, String.data_append]
  exact hab.symm

/-- A trivial context for concrete instances: the URL helpers return
empty strings (one admissible behaviour of the abstracted functions). -/
def plain_build_ctx : BuildCtx :=
  { extract_url_keywords := fun _ => "", extract_domain_context := fun _ => "",
    urlparse_netloc := fun _ => "" }

/-- The same context with a small configured maximum embedding
length. -/
def tiny_build_ctx : BuildCtx :=
  { max_embedding_length := 8,
    extract_url_keywords := fun _ => "", extract_domain_context := fun _ => "",
    urlparse_netloc := fun _ => "" }

theorem pyStripL_replicate_a (n : Nat) :
    pyStripL (List.replicate n 'a') = List.replicate n 'a' := by
  unfold pyStripL
  rw [List.dropWhile_eq_self_iff.mpr ?h1, List.rdropWhile_eq_self_iff.mpr ?h2]
  case h1 =>
    intro hl
    have : (List.replicate n 'a').get ⟨0, hl⟩ = 'a' := by
      rw [List.get_eq_getElem]
      exact List.getElem_replicate _ _
    rw [this]
    decide
  case h2 =>
    intro hl
    have : (List.replicate n 'a').getLast hl = 'a' :=
      List.eq_of_mem_replicate (List.getLast_mem hl)
    rw [this]
    decide

theorem replicate_doc_strip (n : Nat) :
    pyStrip ({ cleaned_text := ⟨List.replicate n 'a'⟩ } : Doc).cleaned_text =
      ⟨List.replicate n 'a'⟩ := by
  show (⟨pyStripL (List.replicate n 'a')⟩ : String) = _
  rw [pyStripL_replicate_a]

theorem replicate_doc_strip_length (n : Nat) :
    (pyStrip ({ cleaned_text := ⟨List.replicate n 'a'⟩ } : Doc).cleaned_text).length
      = n := by
  rw [replicate_doc_strip]
  show (List.replicate n 'a').length = n
  exact List.length_replicate _ _

/-- The character list of the body excerpt of the all-`'a'` document. -/
theorem replicate_doc_excerpt_data (n : Nat) (hn : 4000 < n) :
    (pyTake 2000 (pyStrip ({ cleaned_text := ⟨List.replicate n 'a'⟩ } : Doc).cleaned_text)
      ++ " ... " ++
      pyLastN 1000 (pyStrip ({ cleaned_text := ⟨List.replicate n 'a'⟩ } : Doc).cleaned_text)).data =
      (List.replicate 2000 'a' ++ " ... ".data) ++ List.replicate 1000 'a' := by
  rw [String.data_append, String.data_append, pyTake_data, pyLastN_data,
    replicate_doc_strip]
  show (List.replicate n 'a').take 2000 ++ _ ++
      (List.replicate n 'a').drop ((List.replicate n 'a').length - 1000) = _
  rw [List.take_replicate, List.drop_replicate, List.length_replicate]
  have h1 : min 2000 n = 2000 := by omega
  have h2 : n - (n - 1000) = 1000 := by omega
  rw [h1, h2]

theorem replicate_doc_excerpt_length (n : Nat) (hn : 4000 < n) :
    (pyTake 2000 (pyStrip ({ cleaned_text := ⟨List.replicate n 'a'⟩ } : Doc).cleaned_text)
      ++ " ... " ++
      pyLastN 1000 (pyStrip ({ cleaned_text := ⟨List.replicate n 'a'⟩ } : Doc).cleaned_text)).length
      = 3005 := by
  show (pyTake 2000 (pyStrip ({ cleaned_text := ⟨List.replicate n 'a'⟩ } : Doc).cleaned_text)
      ++ " ... " ++
      pyLastN 1000 (pyStrip ({ cleaned_text := ⟨List.replicate n 'a'⟩ } : Doc).cleaned_text)).data.length
      = 3005
  rw [replicate_doc_excerpt_data n hn]
  rw [List.length_append, List.length_append, List.length_replicate,
    List.length_replicate]
  norm_num

/-- The pieces assembled for the all-`'a'` document are exactly the
body excerpt. -/
theorem replicate_doc_pieces (ctx : BuildCtx) (n : Nat) (hn : 4000 < n) :
    build_pieces ctx { cleaned_text := ⟨List.replicate n 'a'⟩ } =
      [pyTake 2000 (pyStrip ({ cleaned_text := ⟨List.replicate n 'a'⟩ } : Doc).cleaned_text)
        ++ " ... " ++
        pyLastN 1000 (pyStrip ({ cleaned_text := ⟨List.replicate n 'a'⟩ } : Doc).cleaned_text)] := by
  have hlong : 4000 <
      (pyStrip ({ cleaned_text := ⟨List.replicate n 'a'⟩ } : Doc).cleaned_text).length := by
    rw [replicate_doc_strip_length]
    omega
  have hne : ({ cleaned_text := ⟨List.replicate n 'a'⟩ } : Doc).cleaned_text ≠ "" := by
    intro h
    have hl := replicate_doc_strip_length n
    rw [h] at hl
    have : (pyStrip "").length = 0 := by decide
    omega
  unfold build_pieces add_metadata_context
  rw [if_pos hne]
  dsimp only
  rw [if_pos hlong]
  simp

theorem replicate_doc_assembled (ctx : BuildCtx) (n : Nat) (hn : 4000 < n) :
    assembled_text ctx { cleaned_text := ⟨List.replicate n 'a'⟩ } =
      pyStrip (pyTake 2000 (pyStrip ({ cleaned_text := ⟨List.replicate n 'a'⟩ } : Doc).cleaned_text)
        ++ " ... " ++
        pyLastN 1000 (pyStrip ({ cleaned_text := ⟨List.replicate n 'a'⟩ } : Doc).cleaned_text)) := by
  unfold assembled_text
  rw [replicate_doc_pieces ctx n hn]
  have hne : (pyTake 2000 (pyStrip ({ cleaned_text := ⟨List.replicate n 'a'⟩ } : Doc).cleaned_text)
      ++ " ... " ++
      pyLastN 1000 (pyStrip ({ cleaned_text := ⟨List.replicate n 'a'⟩ } : Doc).cleaned_text)) ≠ "" := by
    intro h
    have := replicate_doc_excerpt_length n hn
    rw [h] at this
    exact absurd this (by decide)
  rw [List.filter_cons]
  rw [if_pos (by simpa using hne)]
  rw [List.filter_nil]
  rfl

/-- The excerpt starts and ends with `'a'`, so the final strip leaves
it unchanged. -/
theorem replicate_doc_assembled_eq (ctx : BuildCtx) (n : Nat) (hn : 4000 < n) :
    assembled_text ctx { cleaned_text := ⟨List.replicate n 'a'⟩ } =
      pyTake 2000 (pyStrip ({ cleaned_text := ⟨List.replicate n 'a'⟩ } : Doc).cleaned_text)
        ++ " ... " ++
        pyLastN 1000 (pyStrip ({ cleaned_text := ⟨List.replicate n 'a'⟩ } : Doc).cleaned_text) := by
  rw [replicate_doc_assembled ctx n hn]
  apply string_eq_of_data
  show pyStripL _ = _
  rw [replicate_doc_excerpt_data n hn]
  unfold pyStripL
  rw [List.dropWhile_eq_self_iff.mpr ?h1, List.rdropWhile_eq_self_iff.mpr ?h2]
  case h1 =>
    intro hl
    have h0 : ((List.replicate 2000 'a' ++ " ... ".data) ++
        List.replicate 1000 'a')[0]? = some 'a' := by
      rw [List.getElem?_append,
        if_pos (by rw [List.length_append, List.length_replicate]; omega)]
      rw [List.getElem?_append, if_pos (by rw [List.length_replicate]; omega)]
      rw [List.getElem?_replicate, if_pos (by omega)]
    have hget : ((List.replicate 2000 'a' ++ " ... ".data) ++
        List.replicate 1000 'a').get ⟨0, hl⟩ = 'a' := by
      rw [List.get_eq_getElem]
      have h1 := List.getElem?_eq_getElem hl
      rw [h0] at h1
      exact ((Option.some.injEq _ _).mp h1.symm)
    rw [hget]
    decide
  case h2 =>
    intro hl
    have hget : (((List.replicate 2000 'a' ++ " ... ".data) ++
        List.replicate 1000 'a').getLast hl) = 'a' := by
      rw [ List.getLast_append' _ _
        (List.length_pos.mp (by rw [List.length_replicate]; omega))]
      exact List.eq_of_mem_replicate (List.getLast_mem _)
    rw [hget]
    decide

/-- Witness for `body_excerpt_law`: the all-`'a'` body of length 4001
with the default 8192 maximum. -/
theorem body_excerpt_law_witness :
    ∃ pre suf : String,
      build_embedding_text plain_build_ctx
          { cleaned_text := ⟨List.replicate 4001 'a'⟩ } =
        pre ++ (pyTake 2000 (pyStrip ({ cleaned_text := ⟨List.replicate 4001 'a'⟩ } : Doc).cleaned_text)
          ++ " ... " ++
          pyLastN 1000 (pyStrip ({ cleaned_text := ⟨List.replicate 4001 'a'⟩ } : Doc).cleaned_text)) ++ suf := by
  apply body_excerpt_law plain_build_ctx
    { cleaned_text := ⟨List.replicate 4001 'a'⟩ }
  · rw [replicate_doc_strip_length]
    omega
  · rw [replicate_doc_assembled_eq plain_build_ctx 4001 (by omega),
      replicate_doc_excerpt_length 4001 (by omega)]
    show (3005 : Nat) ≤ 8192
    omega

/-- Parametric counterexample instance: once the configured maximum is
smaller than the excerpt, the built text cannot contain it. -/
theorem body_excerpt_counterexample_param (n : Nat) (hn : 4000 < n) :
    4000 < (pyStrip ({ cleaned_text := ⟨List.replicate n 'a'⟩ } : Doc).cleaned_text).length ∧
    ¬ ∃ pre suf : String,
      build_embedding_text tiny_build_ctx { cleaned_text := ⟨List.replicate n 'a'⟩ } =
        pre ++ (pyTake 2000 (pyStrip ({ cleaned_text := ⟨List.replicate n 'a'⟩ } : Doc).cleaned_text)
          ++ " ... " ++
          pyLastN 1000 (pyStrip ({ cleaned_text := ⟨List.replicate n 'a'⟩ } : Doc).cleaned_text)) ++ suf := by
  constructor
  · rw [replicate_doc_strip_length]
    omega
  · rintro ⟨pre, suf, heq⟩
    have hlen_build : (build_embedding_text tiny_build_ctx
        { cleaned_text := ⟨List.replicate n 'a'⟩ }).length ≤ 8 := by
      unfold build_embedding_text
      dsimp only
      split
      · exact smart_truncate_length_le _ _
      · next h =>
        exfalso
        rw [replicate_doc_assembled_eq tiny_build_ctx n hn,
          replicate_doc_excerpt_length n hn] at h
        exact h (by show (8 : Nat) < 3005; omega)
    rw [heq] at hlen_build
    rw [String.length_append, String.length_append,
      replicate_doc_excerpt_length n hn] at hlen_build
    omega

/-- C7 counterexample: with `max_embedding_length` configured to 8 and
a 4001-character body, the built embedding text is smart-truncated to
at most 8 characters and cannot contain the 3005-character excerpt,
refuting the claim as stated (the claim holds only while the assembled
text stays within the configured maximum). -/
theorem body_excerpt_counterexample :
    4000 < (pyStrip ({ cleaned_text := ⟨List.replicate 4001 'a'⟩ } : Doc).cleaned_text).length ∧
    ¬ ∃ pre suf : String,
      build_embedding_text tiny_build_ctx
          { cleaned_text := ⟨List.replicate 4001 'a'⟩ } =
        pre ++ (pyTake 2000 (pyStrip ({ cleaned_text := ⟨List.replicate 4001 'a'⟩ } : Doc).cleaned_text)
          ++ " ... " ++
          pyLastN 1000 (pyStrip ({ cleaned_text := ⟨List.replicate 4001 'a'⟩ } : Doc).cleaned_text)) ++ suf :=
  body_excerpt_counterexample_param 4001 (by omega)

end Sneakdex
